import Mathlib

/-!
# TSDB: write/query core of an in-memory time-series store

A shallow embedding of `src/blank.go` (package `main`): the types `metric`,
`series`, `timeSeries`, and the functions `getSeriesIdentifier`,
`timeSeries.Write` and `timeSeries.Query`, together with the three library
routines they call (`sort.Search`, `sort.Strings`, `strings.Join`) and the Go
built-ins `append`, `copy` and the slice expression `a[low:high]`.

Modelling conventions.

* Execution is sequential: one call runs to its end before the next starts,
  and every mutex is free when a call starts.  Lock and unlock statements then
  have no effect on the data and are recorded as comments only.
* A run-time panic of the Go program is the `Except.error` outcome.
* `int64` timestamps are `Int` (the program only compares them), slice
  indices and lengths are `Nat` (they are bounded by the length of a slice
  that fits in memory, so `i+j` in `sort.Search` does not wrap).
* A `float64` value is a payload: the program stores it and never computes
  with it.
* Go strings are Lean strings; Go orders strings bytewise, which on UTF-8
  text is the order of the code points used by `strLE`.
* `map[string]string` is the list of its entries in the order in which a
  `range` loop happens to visit them (keys pairwise distinct).
* `map[string]*series` is a partial function from identifiers to series; a
  series is held by value (the pointers stored in a slice are never nil and
  a `metric` is never modified after its creation).
* A Go slice has a length and a capacity; `a[low:high]` on a slice is in
  range when `low <= high <= cap(a)`.  The cells between length and capacity
  of `dataPoints` are nil: they are zeroed when `append` allocates the array
  and the program never shrinks a slice.  The capacity that `append` chooses
  when it has to reallocate is left to the Go runtime, so it is the parameter
  `growCap`.
-/

namespace TSDB

/-! ## Data model -/

/-- A Go `float64`, kept as an uninterpreted payload: a finite number or one
of the three non-finite values. -/
inductive float64 where
  | finite (q : ℚ)
  | posInf
  | negInf
  | nan
deriving DecidableEq

/-- The run-time panics the program can raise. -/
inductive Panic where
  /-- Go reports "invalid memory address or nil pointer dereference". -/
  | nilDereference
  /-- Go reports "index out of range". -/
  | indexOutOfRange
  /-- Go reports "slice bounds out of range". -/
  | sliceBoundsOutOfRange
deriving DecidableEq

/-- Source: `type metric struct` (blank.go 19-24). -/
structure metric where
  name : String
  value : float64
  timeStamp : Int
  tags : List (String × String)
deriving DecidableEq

/-- Source: `type series struct` (blank.go 31-34).  `dataPoints` are the
elements of the slice up to its length, `cap` is the capacity of that slice;
the mutex carries no data. -/
structure series where
  dataPoints : List metric
  cap : Nat
deriving DecidableEq

/-- Source: `type timeSeries struct` (blank.go 26-29).  The map from series
identifier to series; reading a key that is absent (or reading a nil map)
gives `none`. -/
structure timeSeries where
  series : String → Option series

/-- The store that holds no series. -/
def timeSeries.empty : timeSeries := ⟨fun _ => none⟩

/-- Go map assignment `s.series[key] = value`. -/
def timeSeries.store (s : timeSeries) (key : String) (value : TSDB.series) : timeSeries :=
  ⟨fun k => if k = key then some value else s.series k⟩

/-! ## Library routines and built-ins -/

/-- Go's string order `a <= b` on the characters of both strings:
lexicographic, a proper prefix first. -/
def charsLE : List Char → List Char → Bool
  | [], _ => true
  | _ :: _, [] => false
  | a :: as, b :: bs =>
    if a.toNat < b.toNat then true
    else if b.toNat < a.toNat then false
    else charsLE as bs

/-- Go's `a <= b` on strings. -/
def strLE (a b : String) : Bool := charsLE a.toList b.toList

/-- Go's `sort.Strings`: the strings in increasing order.  Strings that
compare equal are equal, so every sorting algorithm gives this list. -/
def sort.Strings (a : List String) : List String :=
  List.insertionSort (fun x y => strLE x y = true) a

/-- Go's `strings.Join`. -/
def strings.Join (elems : List String) (sep : String) : String :=
  sep.intercalate elems

/-- The loop of Go's `sort.Search`:
`for i < j { h := int(uint(i+j) >> 1); if !f(h) { i = h + 1 } else { j = h } }; return i`.
The first argument bounds the number of iterations. -/
def sort.searchLoop (f : Nat → Bool) : Nat → Nat → Nat → Nat
  | 0, i, _ => i
  | fuel + 1, i, j =>
    if i < j then
      let h := (i + j) / 2
      if !f h then sort.searchLoop f fuel (h + 1) j
      else sort.searchLoop f fuel i h
    else i

/-- Go's `sort.Search(n, f)`: the loop started at `i, j := 0, n`.  Every
iteration shrinks `j - i`, so `n` iterations are enough
(`sort.searchLoop_fuel`). -/
def sort.Search (n : Nat) (f : Nat → Bool) : Nat :=
  sort.searchLoop f n 0 n

/-- The capacity after `append(s, x)` on a slice of length `len` and capacity
`cap`: unchanged when there is room, chosen by the runtime otherwise. -/
def appendCap (growCap : Nat → Nat) (len cap : Nat) : Nat :=
  if len < cap then cap else growCap cap

/-- Go's built-in `copy(dst, src)` seen from the destination: the first
`min(len(dst), len(src))` elements of `dst` are replaced by those of `src`
(the source is read as it was before the call, also when both overlap). -/
def copy {α : Type} (dst src : List α) : List α :=
  src.take dst.length ++ dst.drop src.length

/-- The slice expression `a[low : high]` on a slice with elements `a` and
capacity `cap`: out of range unless `low <= high <= cap`; cells beyond the
length are nil (`none`). -/
def sliceExpr (a : List metric) (cap low high : Nat) : Except Panic (List (Option metric)) :=
  if low ≤ high ∧ high ≤ cap then
    Except.ok (((a.map some ++ List.replicate (cap - a.length) none).drop low).take (high - low))
  else Except.error Panic.sliceBoundsOutOfRange

/-! ## The program -/

/-- Source: `getSeriesIdentifier` (blank.go 36-43). -/
def getSeriesIdentifier (name : String) (tags : List (String × String)) : String :=
  let tagsArray := tags.map (fun kv => kv.1 ++ "=" ++ kv.2)
  name ++ "|" ++ strings.Join (sort.Strings tagsArray) "|"

/-- The predicate `timeseries.dataPoints[i].timeStamp >= timestamp` handed to
`sort.Search` (blank.go 66-68, 87-89, 107-109). -/
def tsGE (dataPoints : List metric) (timestamp : Int) (i : Nat) : Bool :=
  match dataPoints.get? i with
  | some p => decide (p.timeStamp ≥ timestamp)
  | none => false

/-- The predicate `timeseries.dataPoints[i].timeStamp <= end` handed to
`sort.Search` (blank.go 110-112). -/
def tsLE (dataPoints : List metric) (endTs : Int) (i : Nat) : Bool :=
  match dataPoints.get? i with
  | some p => decide (p.timeStamp ≤ endTs)
  | none => false

/-- Source: the block "check for last element and do insertion" of
`timeSeries.Write` (blank.go 81-94, and its copy at 60-73), on an existing
series. -/
def insertDataPoint (growCap : Nat → Nat) (timeseries : series) (dataPoint : metric)
    (timestamp : Int) : Except Panic series :=
  -- timeseries.mu.Lock()
  match timeseries.dataPoints.getLast? with
  | none => Except.error Panic.indexOutOfRange
  | some latestDataPoint =>
    let cap1 := appendCap growCap timeseries.dataPoints.length timeseries.cap
    if latestDataPoint.timeStamp < timestamp then
      Except.ok ⟨timeseries.dataPoints ++ [dataPoint], cap1⟩
    else
      let indexToInsertAt :=
        sort.Search timeseries.dataPoints.length (tsGE timeseries.dataPoints timestamp)
      let dp1 := timeseries.dataPoints ++ [dataPoint]
      let dp2 := dp1.take (indexToInsertAt + 1) ++
        copy (dp1.drop (indexToInsertAt + 1)) (dp1.drop indexToInsertAt)
      let dp3 := dp2.set indexToInsertAt latestDataPoint
      Except.ok ⟨dp3, cap1⟩
  -- timeseries.mu.Unlock()

/-- Source: `timeSeries.Write` (blank.go 45-97). -/
def timeSeries.Write (growCap : Nat → Nat) (s : timeSeries) (name : String)
    (tags : List (String × String)) (value : float64) (timestamp : Int) :
    Except Panic timeSeries :=
  let seriesidentifier := getSeriesIdentifier name tags
  let dataPoint : metric := ⟨name, value, timestamp, tags⟩
  match s.series seriesidentifier with
  | none =>
    -- s.mu.Lock()
    match s.series seriesidentifier with
    | none =>
      -- `timeseries` is nil here: `timeseries.mu.Lock()` dereferences it
      Except.error Panic.nilDereference
    | some _ =>
      Except.ok (s.store seriesidentifier ⟨[dataPoint], 1⟩)
    -- s.mu.Unlock()
  | some timeseries =>
    match insertDataPoint growCap timeseries dataPoint timestamp with
    | Except.error e => Except.error e
    | Except.ok timeseries1 => Except.ok (s.store seriesidentifier timeseries1)

/-- Source: `timeSeries.Query` (blank.go 99-115). -/
def timeSeries.Query (s : timeSeries) (name : String) (tags : List (String × String))
    (start endTs : Int) : Except Panic (List (Option metric)) :=
  let seriesIdentifier := getSeriesIdentifier name tags
  match s.series seriesIdentifier with
  | none => Except.ok []
  | some timeseries =>
    -- timeseries.mu.RLock(); defer timeseries.mu.RUnlock()
    let indexToStartAt :=
      sort.Search timeseries.dataPoints.length (tsGE timeseries.dataPoints start)
    let indexToEndAt :=
      sort.Search timeseries.dataPoints.length (tsLE timeseries.dataPoints endTs)
    sliceExpr timeseries.dataPoints timeseries.cap indexToStartAt (indexToEndAt + 1)

/-! ## Observations and inputs used by the statements -/

deriving instance DecidableEq for Except

/-- The points stored under an identifier, when a series exists there. -/
def timeSeries.pointsAt (s : timeSeries) (key : String) : Option (List metric) :=
  (s.series key).map series.dataPoints

/-- Writes issued one after another with the same name and tag set; the run
stops at the first call that panics. -/
def timeSeries.WriteAll (growCap : Nat → Nat) (s : timeSeries) (name : String)
    (tags : List (String × String)) : List (Int × float64) → Except Panic timeSeries
  | [] => Except.ok s
  | (timestamp, value) :: rest =>
    match s.Write growCap name tags value timestamp with
    | Except.error e => Except.error e
    | Except.ok s1 => timeSeries.WriteAll growCap s1 name tags rest

/-- Non-decreasing by `timeStamp`. -/
def nonDecreasing (dataPoints : List metric) : Prop :=
  dataPoints.Pairwise (fun a b => a.timeStamp ≤ b.timeStamp)

instance (dataPoints : List metric) : Decidable (nonDecreasing dataPoints) := by
  unfold nonDecreasing; infer_instance

/-- The number of points with `timeStamp` strictly below `t`. -/
def countBelow (dataPoints : List metric) (t : Int) : Nat :=
  dataPoints.countP (fun p => decide (p.timeStamp < t))

/-- The number of points with `timeStamp` at most `t`. -/
def countUpTo (dataPoints : List metric) (t : Int) : Nat :=
  dataPoints.countP (fun p => decide (p.timeStamp ≤ t))

/-- The metric `Write("cpu", {"host": "a"}, value, timestamp)` builds. -/
def cpuPoint (timestamp : Int) (value : ℚ) : metric :=
  ⟨"cpu", float64.finite value, timestamp, [("host", "a")]⟩

/-- A store whose only series is the one of `("cpu", {"host": "a"})`, with
the given points and capacity (as a composite literal of package `main` can
build it). -/
def cpuStore (dataPoints : List metric) (cap : Nat) : timeSeries :=
  timeSeries.empty.store (getSeriesIdentifier "cpu" [("host", "a")]) ⟨dataPoints, cap⟩

/-- The points a store holds for `("cpu", {"host": "a"})`. -/
def cpuPoints (s : timeSeries) : Option (List metric) :=
  s.pointsAt (getSeriesIdentifier "cpu" [("host", "a")])

/-- The element that `getSeriesIdentifier` appends to `tagsArray` for one tag
(blank.go 39): `k + "=" + v`. -/
def tagEntry (kv : String × String) : String := kv.1 ++ "=" ++ kv.2

/-- The characters of `strings.Join(elems, "|")`, computed on the characters
of the elements. -/
def joinChars : List (List Char) → List Char
  | [] => []
  | [x] => x
  | x :: y :: rest => x ++ '|' :: joinChars (y :: rest)

/-- A store with two series: the one of `("cpu", {"host": "a"})` holding
(10, 1.0) and the one of `("mem", {"host": "a"})` holding (5, 7.0). -/
def twoStore : timeSeries :=
  (cpuStore [cpuPoint 10 1] 1).store (getSeriesIdentifier "mem" [("host", "a")])
    ⟨[⟨"mem", float64.finite 7, 5, [("host", "a")]⟩], 1⟩

/-! ## sort.Search -/

theorem sort.searchLoop_bounds (f : Nat → Bool) :
    ∀ (fuel i j : Nat), i ≤ j →
      i ≤ sort.searchLoop f fuel i j ∧ sort.searchLoop f fuel i j ≤ j := by
  intro fuel
  induction fuel with
  | zero => intro i j hij; simp [sort.searchLoop, hij]
  | succ fuel ih =>
    intro i j hij
    unfold sort.searchLoop
    by_cases h : i < j
    · simp only [h, if_true]
      by_cases hf : f ((i + j) / 2) = true
      · simp only [hf, Bool.not_true, Bool.false_eq_true, if_false]
        have := ih i ((i + j) / 2) (by omega)
        omega
      · simp only [hf, Bool.not_false, Bool.not_eq_true] at *
        simp only [hf, Bool.not_false, if_true]
        have := ih ((i + j) / 2 + 1) j (by omega)
        omega
    · simp only [h, if_false]; omega

theorem sort.Search_le (n : Nat) (f : Nat → Bool) : sort.Search n f ≤ n :=
  (sort.searchLoop_bounds f n 0 n (Nat.zero_le n)).2

/-- Fuel adequacy: once the fuel covers `j - i`, more fuel changes nothing. -/
theorem sort.searchLoop_fuel (f : Nat → Bool) :
    ∀ (fuel fuel1 i j : Nat), j - i ≤ fuel → j - i ≤ fuel1 →
      sort.searchLoop f fuel i j = sort.searchLoop f fuel1 i j := by
  intro fuel
  induction fuel with
  | zero =>
    intro fuel1 i j h0 _
    have hij : ¬ i < j := by omega
    cases fuel1 <;> simp [sort.searchLoop, hij]
  | succ fuel ih =>
    intro fuel1 i j h0 h1
    cases fuel1 with
    | zero =>
      have hij : ¬ i < j := by omega
      simp [sort.searchLoop, hij]
    | succ fuel1 =>
      unfold sort.searchLoop
      by_cases h : i < j
      · simp only [h, if_true]
        rw [ih fuel1 ((i + j) / 2 + 1) j (by omega) (by omega),
          ih fuel1 i ((i + j) / 2) (by omega) (by omega)]
      · simp only [h, if_false]

/-- The search reads its predicate below `n` only: the value the predicates
`tsGE` and `tsLE` take outside the slice is never used. -/
theorem sort.searchLoop_congr (f g : Nat → Bool) (n : Nat) (hfg : ∀ x, x < n → f x = g x) :
    ∀ (fuel i j : Nat), j ≤ n → sort.searchLoop f fuel i j = sort.searchLoop g fuel i j := by
  intro fuel
  induction fuel with
  | zero => intro i j _; simp [sort.searchLoop]
  | succ fuel ih =>
    intro i j hjn
    unfold sort.searchLoop
    by_cases h : i < j
    · have hm : (i + j) / 2 < n := by omega
      simp only [h, if_true, hfg _ hm]
      rw [ih ((i + j) / 2 + 1) j hjn, ih i ((i + j) / 2) (by omega)]
    · simp only [h, if_false]

theorem sort.Search_congr (f g : Nat → Bool) (n : Nat) (hfg : ∀ x, x < n → f x = g x) :
    sort.Search n f = sort.Search n g :=
  sort.searchLoop_congr f g n hfg n 0 n (Nat.le_refl n)

/-- On a predicate that is false below index `k` and true from `k` up to
`n`, the loop run inside `[0, n]` returns `k`. -/
theorem sort.searchLoop_threshold (f : Nat → Bool) (k n : Nat)
    (hlo : ∀ x, x < k → f x = false) (hhi : ∀ x, k ≤ x → x < n → f x = true) :
    ∀ (fuel i j : Nat), j - i ≤ fuel → i ≤ k → k ≤ j → j ≤ n →
      sort.searchLoop f fuel i j = k := by
  intro fuel
  induction fuel with
  | zero => intro i j h0 hik hkj _; simp [sort.searchLoop]; omega
  | succ fuel ih =>
    intro i j h0 hik hkj hjn
    unfold sort.searchLoop
    by_cases h : i < j
    · simp only [h, if_true]
      by_cases hk : k ≤ (i + j) / 2
      · have hm : (i + j) / 2 < n := by omega
        simp only [hhi _ hk hm, Bool.not_true, Bool.false_eq_true, if_false]
        exact ih i ((i + j) / 2) (by omega) hik hk (by omega)
      · have hm : (i + j) / 2 < k := by omega
        simp only [hlo _ hm, Bool.not_false, if_true]
        exact ih ((i + j) / 2 + 1) j (by omega) (by omega) hkj hjn
    · simp only [h, if_false]; omega

theorem sort.Search_threshold (f : Nat → Bool) (k n : Nat) (hkn : k ≤ n)
    (hlo : ∀ x, x < k → f x = false) (hhi : ∀ x, k ≤ x → x < n → f x = true) :
    sort.Search n f = k :=
  sort.searchLoop_threshold f k n hlo hhi n 0 n (by omega) (Nat.zero_le k) hkn (Nat.le_refl n)

/-! ## Sorted series -/

theorem countBelow_le_length (l : List metric) (t : Int) : countBelow l t ≤ l.length :=
  List.countP_le_length _

theorem tsGE_below (l : List metric) (hs : nonDecreasing l) (t : Int) :
    ∀ x, x < countBelow l t → tsGE l t x = false := by
  induction l with
  | nil => intro x hx; simp [countBelow] at hx
  | cons a l ih =>
    intro x hx
    have hs1 : nonDecreasing l := (List.pairwise_cons.mp hs).2
    have ha := (List.pairwise_cons.mp hs).1
    by_cases hat : a.timeStamp < t
    · cases x with
      | zero => simp [tsGE, hat]
      | succ x =>
        have : x < countBelow l t := by
          simp [countBelow, List.countP_cons, hat] at hx ⊢; omega
        simpa [tsGE] using ih hs1 x this
    · have h0 : countBelow l t = 0 := by
        simp only [countBelow, List.countP_eq_zero, decide_eq_true_eq]
        intro p hp
        have := ha p hp
        omega
      have hx1 : x < countBelow l t := by
        simpa [countBelow, List.countP_cons, hat] using hx
      omega

theorem tsGE_above (l : List metric) (hs : nonDecreasing l) (t : Int) :
    ∀ x, countBelow l t ≤ x → x < l.length → tsGE l t x = true := by
  induction l with
  | nil => intro x _ hx; simp at hx
  | cons a l ih =>
    intro x hx hxl
    have hs1 : nonDecreasing l := (List.pairwise_cons.mp hs).2
    have ha := (List.pairwise_cons.mp hs).1
    by_cases hat : a.timeStamp < t
    · have hc : countBelow (a :: l) t = countBelow l t + 1 := by
        simp [countBelow, List.countP_cons, hat]
      cases x with
      | zero => omega
      | succ x =>
        have := ih hs1 x (by omega) (by simpa using hxl)
        simpa [tsGE] using this
    · cases x with
      | zero => simp [tsGE]; omega
      | succ x =>
        have h0 : countBelow l t = 0 := by
          simp only [countBelow, List.countP_eq_zero, decide_eq_true_eq]
          intro p hp
          have := ha p hp
          omega
        have := ih hs1 x (by omega) (by simpa using hxl)
        simpa [tsGE] using this

/-- On a non-decreasing series the search with predicate `timeStamp >= t`
returns the number of points with `timeStamp < t`. -/
theorem Search_tsGE (l : List metric) (hs : nonDecreasing l) (t : Int) :
    sort.Search l.length (tsGE l t) = countBelow l t :=
  sort.Search_threshold _ _ _ (countBelow_le_length l t) (tsGE_below l hs t) (tsGE_above l hs t)

theorem le_last_of_nonDecreasing (l : List metric) (latest : metric)
    (hl : l.getLast? = some latest) (hs : nonDecreasing l) :
    ∀ p ∈ l, p.timeStamp ≤ latest.timeStamp := by
  intro p hp
  have hne : l ≠ [] := by intro h; simp [h] at hl
  have hlast : l.getLast hne = latest := by
    rw [List.getLast?_eq_getLast l hne] at hl
    exact Option.some.inj hl
  have hsplit := List.dropLast_append_getLast hne
  rw [hlast] at hsplit
  rw [← hsplit] at hp hs
  rcases List.mem_append.mp hp with h | h
  · exact (List.pairwise_append.mp hs).2.2 p h latest (by simp)
  · simp at h; rw [h]

theorem countBelow_eq_length (l : List metric) (t : Int) (h : ∀ p ∈ l, p.timeStamp < t) :
    countBelow l t = l.length := by
  simp only [countBelow, List.countP_eq_length, decide_eq_true_eq]
  exact h

theorem countUpTo_eq_length (l : List metric) (t : Int) (h : ∀ p ∈ l, p.timeStamp < t) :
    countUpTo l t = l.length := by
  simp only [countUpTo, List.countP_eq_length, decide_eq_true_eq]
  intro p hp
  exact le_of_lt (h p hp)

/-! ## The insertion block of Write -/

theorem copy_shift {α : Type} (b : List α) (x : α) :
    copy ((b ++ [x]).drop 1) (b ++ [x]) = b := by
  simp [copy]

theorem slow_path_lists {α : Type} (a b : List α) (x y : α) :
    (((a ++ b ++ [x]).take (a.length + 1) ++
      copy ((a ++ b ++ [x]).drop (a.length + 1)) ((a ++ b ++ [x]).drop a.length)).set
        a.length y) = a ++ y :: b := by
  have h1 : (a ++ b ++ [x]).drop a.length = b ++ [x] := by
    simp [List.append_assoc]
  have h2 : (a ++ b ++ [x]).drop (a.length + 1) = (b ++ [x]).drop 1 := by
    rw [← List.drop_drop, h1]
  have h3 : (a ++ b ++ [x]).take (a.length + 1) = a ++ (b ++ [x]).take 1 := by
    rw [List.append_assoc, List.take_append]
  rw [h1, h2, h3, copy_shift]
  cases b with
  | nil => simp
  | cons b0 bt => simp

theorem eraseIdx_insert_at {α : Type} (l : List α) (k : Nat) (y : α) (hk : k ≤ l.length) :
    (l.take k ++ y :: l.drop k).eraseIdx k = l := by
  have hlen : (l.take k).length = k := by simp [hk]
  rw [List.eraseIdx_append_of_length_le (by omega), hlen, Nat.sub_self]
  simp

theorem insertDataPoint_fast (growCap : Nat → Nat) (timeseries : series) (dataPoint : metric)
    (timestamp : Int) (latest : metric)
    (hl : timeseries.dataPoints.getLast? = some latest)
    (hlt : latest.timeStamp < timestamp) :
    insertDataPoint growCap timeseries dataPoint timestamp =
      Except.ok ⟨timeseries.dataPoints ++ [dataPoint],
        appendCap growCap timeseries.dataPoints.length timeseries.cap⟩ := by
  simp [insertDataPoint, hl, hlt]

theorem insertDataPoint_slow (growCap : Nat → Nat) (timeseries : series) (dataPoint : metric)
    (timestamp : Int) (latest : metric)
    (hl : timeseries.dataPoints.getLast? = some latest)
    (hge : ¬ latest.timeStamp < timestamp) :
    insertDataPoint growCap timeseries dataPoint timestamp =
      Except.ok ⟨timeseries.dataPoints.take
          (sort.Search timeseries.dataPoints.length (tsGE timeseries.dataPoints timestamp)) ++
        latest :: timeseries.dataPoints.drop
          (sort.Search timeseries.dataPoints.length (tsGE timeseries.dataPoints timestamp)),
        appendCap growCap timeseries.dataPoints.length timeseries.cap⟩ := by
  have hk := sort.Search_le timeseries.dataPoints.length (tsGE timeseries.dataPoints timestamp)
  simp only [insertDataPoint, hl, hge, if_false]
  generalize sort.Search timeseries.dataPoints.length (tsGE timeseries.dataPoints timestamp) = k
    at hk
  have key := slow_path_lists (timeseries.dataPoints.take k) (timeseries.dataPoints.drop k)
    dataPoint latest
  rw [List.take_append_drop, List.length_take, Nat.min_eq_left hk] at key
  rw [key]

theorem store_series_self (s : timeSeries) (key : String) (value : series) :
    (s.store key value).series key = some value := by
  simp [timeSeries.store]

theorem Write_existing (growCap : Nat → Nat) (s : timeSeries) (name : String)
    (tags : List (String × String)) (value : float64) (timestamp : Int) (timeseries : series)
    (h : s.series (getSeriesIdentifier name tags) = some timeseries) :
    s.Write growCap name tags value timestamp =
      match insertDataPoint growCap timeseries ⟨name, value, timestamp, tags⟩ timestamp with
      | Except.error e => Except.error e
      | Except.ok timeseries1 =>
        Except.ok (s.store (getSeriesIdentifier name tags) timeseries1) := by
  simp [timeSeries.Write, h]

theorem Write_of_absent (growCap : Nat → Nat) (s : timeSeries) (name : String)
    (tags : List (String × String)) (value : float64) (timestamp : Int)
    (h : s.series (getSeriesIdentifier name tags) = none) :
    s.Write growCap name tags value timestamp = Except.error Panic.nilDereference := by
  simp [timeSeries.Write, h]

/-! ## Query -/

theorem Query_existing (s : timeSeries) (name : String) (tags : List (String × String))
    (start endTs : Int) (timeseries : series)
    (h : s.series (getSeriesIdentifier name tags) = some timeseries) :
    s.Query name tags start endTs =
      sliceExpr timeseries.dataPoints timeseries.cap
        (sort.Search timeseries.dataPoints.length (tsGE timeseries.dataPoints start))
        (sort.Search timeseries.dataPoints.length (tsLE timeseries.dataPoints endTs) + 1) := by
  simp [timeSeries.Query, h]

theorem Query_of_absent (s : timeSeries) (name : String) (tags : List (String × String))
    (start endTs : Int) (h : s.series (getSeriesIdentifier name tags) = none) :
    s.Query name tags start endTs = Except.ok [] := by
  simp [timeSeries.Query, h]

theorem sliceExpr_inverted (a : List metric) (cap low high : Nat) (h : high < low) :
    sliceExpr a cap low high = Except.error Panic.sliceBoundsOutOfRange := by
  simp [sliceExpr]; omega

theorem sliceExpr_within (a : List metric) (cap low high : Nat) (h1 : low ≤ high)
    (h2 : high ≤ a.length) (h3 : a.length ≤ cap) :
    sliceExpr a cap low high = Except.ok (((a.drop low).take (high - low)).map some) := by
  have h4 : high ≤ cap := by omega
  simp only [sliceExpr, h1, h4, and_self, if_true]
  congr 1
  rw [List.drop_append_of_le_length (by simp; omega), List.take_append_of_le_length (by simp; omega)]
  simp [List.map_drop, List.map_take]

theorem Query_single_point (s : timeSeries) (name : String) (tags : List (String × String))
    (start endTs : Int) (p : metric) (cap : Nat)
    (h : s.series (getSeriesIdentifier name tags) = some ⟨[p], cap⟩)
    (hcap : 1 ≤ cap) (hp : p.timeStamp ≤ endTs) (hse : endTs < start) :
    s.Query name tags start endTs = Except.ok [] := by
  rw [Query_existing s name tags start endTs _ h]
  have h1 : sort.Search 1 (tsGE [p] start) = 1 := by
    have : ¬ start ≤ p.timeStamp := by omega
    simp [sort.Search, sort.searchLoop, tsGE, this]
  have h2 : sort.Search 1 (tsLE [p] endTs) = 0 := by
    simp [sort.Search, sort.searchLoop, tsLE, hp]
  show sliceExpr [p] cap (sort.Search 1 (tsGE [p] start)) (sort.Search 1 (tsLE [p] endTs) + 1) = _
  rw [h1, h2]
  simp [sliceExpr, hcap]

theorem cpuStore_series (dataPoints : List metric) (cap : Nat) :
    (cpuStore dataPoints cap).series (getSeriesIdentifier "cpu" [("host", "a")]) =
      some ⟨dataPoints, cap⟩ := by
  simp [cpuStore, timeSeries.store]

/-! ## The upper-bound search of Query -/

/-- What the loop of `sort.Search` guarantees for any predicate: the
predicate holds at the result when the result is below `j`, and fails just
before the result when the result is above `i`. -/
theorem sort.searchLoop_edges (f : Nat → Bool) :
    ∀ (fuel i j : Nat), i ≤ j → j - i ≤ fuel →
      (sort.searchLoop f fuel i j < j → f (sort.searchLoop f fuel i j) = true) ∧
      (i < sort.searchLoop f fuel i j → f (sort.searchLoop f fuel i j - 1) = false) := by
  intro fuel
  induction fuel with
  | zero =>
    intro i j hij h0
    simp only [sort.searchLoop]
    constructor <;> intro h <;> omega
  | succ fuel ih =>
    intro i j hij h0
    unfold sort.searchLoop
    by_cases h : i < j
    · simp only [h, if_true]
      by_cases hf : f ((i + j) / 2) = true
      · simp only [hf, Bool.not_true, Bool.false_eq_true, if_false]
        have hb := sort.searchLoop_bounds f fuel i ((i + j) / 2) (by omega)
        have hi := ih i ((i + j) / 2) (by omega) (by omega)
        refine ⟨fun _ => ?_, hi.2⟩
        by_cases hr : sort.searchLoop f fuel i ((i + j) / 2) < (i + j) / 2
        · exact hi.1 hr
        · have : sort.searchLoop f fuel i ((i + j) / 2) = (i + j) / 2 := by omega
          rw [this]; exact hf
      · simp only [Bool.not_eq_true] at hf
        simp only [hf, Bool.not_false, if_true]
        have hb := sort.searchLoop_bounds f fuel ((i + j) / 2 + 1) j (by omega)
        have hi := ih ((i + j) / 2 + 1) j (by omega) (by omega)
        refine ⟨hi.1, fun _ => ?_⟩
        by_cases hr : (i + j) / 2 + 1 < sort.searchLoop f fuel ((i + j) / 2 + 1) j
        · exact hi.2 hr
        · have : sort.searchLoop f fuel ((i + j) / 2 + 1) j = (i + j) / 2 + 1 := by omega
          rw [this]; simpa using hf
    · simp only [h, if_false]
      exact ⟨fun h1 => absurd h1 (by simp), fun h1 => absurd h1 (by simp)⟩

/-- The first probe of `sort.Search` decides on which side of `n / 2` the
result lies. -/
theorem sort.Search_first_probe (n : Nat) (f : Nat → Bool) (hn : 0 < n) :
    (f (n / 2) = true → sort.Search n f ≤ n / 2) ∧
    (f (n / 2) = false → n / 2 < sort.Search n f) := by
  obtain ⟨m, rfl⟩ : ∃ m, n = m + 1 := ⟨n - 1, by omega⟩
  unfold sort.Search sort.searchLoop
  simp only [Nat.zero_add, hn, if_true]
  constructor
  · intro hf
    simp only [hf, Bool.not_true, Bool.false_eq_true, if_false]
    exact (sort.searchLoop_bounds f m 0 ((m + 1) / 2) (by omega)).2
  · intro hf
    simp only [hf, Bool.not_false, if_true]
    have := (sort.searchLoop_bounds f m ((m + 1) / 2 + 1) (m + 1) (by omega)).1
    omega

theorem tsLE_downward (l : List metric) (hs : nonDecreasing l) (t : Int) (x y : Nat)
    (hxy : x ≤ y) (hy : tsLE l t y = true) : tsLE l t x = true := by
  have hyl : y < l.length := by
    by_contra hc
    simp [tsLE, List.getElem?_eq_none (Nat.le_of_not_lt hc)] at hy
  have hxl : x < l.length := by omega
  rcases Nat.eq_or_lt_of_le hxy with h | h
  · rw [h]; exact hy
  · have hrel := (List.pairwise_iff_getElem.mp hs) x y hxl hyl h
    simp only [tsLE, List.get?_eq_getElem?, List.getElem?_eq_getElem hyl,
      decide_eq_true_eq] at hy
    simp only [tsLE, List.get?_eq_getElem?, List.getElem?_eq_getElem hxl,
      decide_eq_true_eq]
    omega

/-- On a non-decreasing, non-empty series the search with the predicate
`timeStamp <= end` returns 0 when the middle point is at most `end`, and the
length otherwise. -/
theorem Search_tsLE (l : List metric) (hs : nonDecreasing l) (t : Int) (hne : l ≠ []) :
    sort.Search l.length (tsLE l t) =
      if tsLE l t (l.length / 2) = true then 0 else l.length := by
  have hpos : 0 < l.length := List.length_pos.mpr hne
  have hedge : (sort.Search l.length (tsLE l t) < l.length →
        tsLE l t (sort.Search l.length (tsLE l t)) = true) ∧
      (0 < sort.Search l.length (tsLE l t) →
        tsLE l t (sort.Search l.length (tsLE l t) - 1) = false) :=
    sort.searchLoop_edges (tsLE l t) l.length 0 l.length (Nat.zero_le _) (by omega)
  have hprobe := sort.Search_first_probe l.length (tsLE l t) hpos
  have hle := sort.Search_le l.length (tsLE l t)
  generalize sort.Search l.length (tsLE l t) = r at *
  have hends : r = 0 ∨ r = l.length := by
    by_contra hc
    have h1 := hedge.1 (by omega)
    have h2 := hedge.2 (by omega)
    have := tsLE_downward l hs t (r - 1) r (by omega) h1
    rw [this] at h2
    exact Bool.noConfusion h2
  by_cases hf : tsLE l t (l.length / 2) = true
  · simp only [hf, if_true]
    have := hprobe.1 hf
    omega
  · simp only [hf]
    simp only [Bool.not_eq_true] at hf
    have := hprobe.2 hf
    simp; omega

theorem sliceExpr_eq_nil (a : List metric) (cap low high : Nat)
    (h : sliceExpr a cap low high = Except.ok []) : high = low := by
  unfold sliceExpr at h
  by_cases hb : low ≤ high ∧ high ≤ cap
  · simp only [hb, and_self, if_true, Except.ok.injEq, List.take_eq_nil_iff,
      List.drop_eq_nil_iff] at h
    rcases h with h | h
    · omega
    · simp at h
      omega
  · simp [hb] at h

/-- On a non-decreasing, non-empty series a query with start > end returns
the empty sequence in no other state than the one of `Query_single_point`. -/
theorem Query_inverted_range_only (s : timeSeries) (name : String)
    (tags : List (String × String)) (start endTs : Int) (timeseries : series)
    (hs : s.series (getSeriesIdentifier name tags) = some timeseries)
    (hne : timeseries.dataPoints ≠ []) (hsorted : nonDecreasing timeseries.dataPoints)
    (hse : endTs < start)
    (h : s.Query name tags start endTs = Except.ok []) :
    ∃ p, timeseries.dataPoints = [p] ∧ p.timeStamp ≤ endTs := by
  rw [Query_existing s name tags start endTs timeseries hs, Search_tsGE _ hsorted,
    Search_tsLE _ hsorted _ hne] at h
  have hlo := countBelow_le_length timeseries.dataPoints start
  have heq := sliceExpr_eq_nil _ _ _ _ h
  have hpos : 0 < timeseries.dataPoints.length := List.length_pos.mpr hne
  by_cases hf : tsLE timeseries.dataPoints endTs (timeseries.dataPoints.length / 2) = true
  · simp only [hf, if_true] at heq
    have hmid : timeseries.dataPoints.length / 2 < countBelow timeseries.dataPoints start := by
      by_contra hc
      have hge := tsGE_above _ hsorted start _ (Nat.le_of_not_lt hc) (by omega)
      have hml : timeseries.dataPoints.length / 2 < timeseries.dataPoints.length := by omega
      simp only [tsLE, List.get?_eq_getElem?, List.getElem?_eq_getElem hml,
        decide_eq_true_eq] at hf
      simp only [tsGE, List.get?_eq_getElem?, List.getElem?_eq_getElem hml,
        decide_eq_true_eq] at hge
      omega
    have hlen : timeseries.dataPoints.length = 1 := by omega
    match hd : timeseries.dataPoints with
    | [] => exact absurd hd hne
    | [p] =>
      refine ⟨p, rfl, ?_⟩
      rw [hd] at hf
      have hz : [p].length / 2 = 0 := by simp
      rw [hz] at hf
      simpa [tsLE] using hf
    | _ :: _ :: _ => rw [hd] at hlen; simp at hlen
  · simp only [hf] at heq
    simp at heq
    omega

/-! ## The claims C1 to C10 -/

/-- C1, write-then-query scenario, evaluated on the code.  Starting from the
store that holds no series, the first of the writes (100, 1.0), (50, 2.0),
(75, 3.0) stops with a nil dereference, so the scenario never reaches its
query.  Starting instead from a store in which the series already holds the
first point (100, 1.0), the writes (50, 2.0), (75, 3.0) followed by
`Query(0, 1000)` return the single point (100, 1.0), not
(50, 2.0), (75, 3.0), (100, 1.0). -/
theorem scenario_write_then_query (growCap : Nat → Nat) :
    (match timeSeries.WriteAll growCap timeSeries.empty "cpu" [("host", "a")]
        [(100, float64.finite 1), (50, float64.finite 2), (75, float64.finite 3)] with
      | Except.error e => Except.error e
      | Except.ok s => s.Query "cpu" [("host", "a")] 0 1000)
      = Except.error Panic.nilDereference
    ∧ (match timeSeries.WriteAll (fun c => 2 * c) (cpuStore [cpuPoint 100 1] 1) "cpu"
        [("host", "a")] [(50, float64.finite 2), (75, float64.finite 3)] with
      | Except.error e => Except.error e
      | Except.ok s => s.Query "cpu" [("host", "a")] 0 1000)
      = Except.ok [some (cpuPoint 100 1)] :=
  ⟨rfl, by decide⟩

/-- C2, ordering invariant, evaluated on the code.  The series (10, 1.0),
(20, 2.0) is non-empty and non-decreasing; after the completed
`Write(3.0, 5)` it holds the timestamps 20, 10, 20, which are not
non-decreasing. -/
theorem Write_breaks_order (growCap : Nat → Nat) :
    nonDecreasing [cpuPoint 10 1, cpuPoint 20 2] ∧
    (timeSeries.Write growCap (cpuStore [cpuPoint 10 1, cpuPoint 20 2] 2) "cpu"
        [("host", "a")] (float64.finite 3) 5).map cpuPoints
      = Except.ok (some [cpuPoint 20 2, cpuPoint 10 1, cpuPoint 20 2]) ∧
    ¬ nonDecreasing [cpuPoint 20 2, cpuPoint 10 1, cpuPoint 20 2] :=
  ⟨by decide, rfl, by decide⟩

/-- C3, inclusive range query, evaluated on the code.  On the non-decreasing
series (50, 2.0), (75, 3.0), (100, 1.0), whatever its spare capacity,
`Query(0, 1000)` returns the first point only, although all three points lie
in the range. -/
theorem Query_misses_points_in_range (extra : Nat) :
    nonDecreasing [cpuPoint 50 2, cpuPoint 75 3, cpuPoint 100 1] ∧
    (cpuStore [cpuPoint 50 2, cpuPoint 75 3, cpuPoint 100 1] (extra + 3)).Query
        "cpu" [("host", "a")] 0 1000
      = Except.ok [some (cpuPoint 50 2)] := by
  have h1 : sort.Search 3 (tsGE [cpuPoint 50 2, cpuPoint 75 3, cpuPoint 100 1] 0) = 0 := by
    decide
  have h2 : sort.Search 3 (tsLE [cpuPoint 50 2, cpuPoint 75 3, cpuPoint 100 1] 1000) = 0 := by
    decide
  refine ⟨by decide, ?_⟩
  rw [Query_existing _ _ _ _ _ _ (cpuStore_series _ _)]
  show sliceExpr [cpuPoint 50 2, cpuPoint 75 3, cpuPoint 100 1] (extra + 3)
    (sort.Search 3 (tsGE [cpuPoint 50 2, cpuPoint 75 3, cpuPoint 100 1] 0))
    (sort.Search 3 (tsLE [cpuPoint 50 2, cpuPoint 75 3, cpuPoint 100 1] 1000) + 1) = _
  rw [h1, h2, sliceExpr_within _ _ _ _ (by decide) (by decide) (by simp)]
  rfl

/-- C4, read-your-write, evaluated on the code.  On the series (10, 1.0) the
call `Write(2.0, 20)` completes and stores (10, 1.0), (20, 2.0); the
following `Query(20, 20)` returns the empty sequence (or, when the runtime
gave the slice no capacity for it, fails on its slice bounds): in no case a
sequence that contains the point (20, 2.0). -/
theorem Query_after_Write_misses_point (growCap : Nat → Nat) :
    ∃ s1, timeSeries.Write growCap (cpuStore [cpuPoint 10 1] 1) "cpu" [("host", "a")]
        (float64.finite 2) 20 = Except.ok s1 ∧
      cpuPoints s1 = some [cpuPoint 10 1, cpuPoint 20 2] ∧
      (s1.Query "cpu" [("host", "a")] 20 20 = Except.ok [] ∨
       s1.Query "cpu" [("host", "a")] 20 20 = Except.error Panic.sliceBoundsOutOfRange) := by
  refine ⟨(cpuStore [cpuPoint 10 1] 1).store (getSeriesIdentifier "cpu" [("host", "a")])
    ⟨[cpuPoint 10 1, cpuPoint 20 2], growCap 1⟩, rfl, rfl, ?_⟩
  have hq : ((cpuStore [cpuPoint 10 1] 1).store (getSeriesIdentifier "cpu" [("host", "a")])
      ⟨[cpuPoint 10 1, cpuPoint 20 2], growCap 1⟩).series
        (getSeriesIdentifier "cpu" [("host", "a")]) =
      some ⟨[cpuPoint 10 1, cpuPoint 20 2], growCap 1⟩ := store_series_self _ _ _
  rw [Query_existing _ _ _ _ _ _ hq]
  have h1 : sort.Search 2 (tsGE [cpuPoint 10 1, cpuPoint 20 2] 20) = 1 := by decide
  have h2 : sort.Search 2 (tsLE [cpuPoint 10 1, cpuPoint 20 2] 20) = 0 := by decide
  simp only [List.length_cons, List.length_nil, Nat.zero_add, Nat.reduceAdd, h1, h2]
  by_cases h : 1 ≤ growCap 1
  · left
    simp [sliceExpr, h]
  · right
    simp [sliceExpr, h]

/-- C5, no loss and no duplication, evaluated on the code.  On the series
(10, 1.0), (20, 2.0), (30, 3.0) the completed `Write(9.0, 15)` leaves
(10, 1.0), (30, 3.0), (20, 2.0), (30, 3.0): the new point (15, 9.0) is not
stored and the former last point is stored twice, so the result is not the
previous points plus the new one. -/
theorem Write_out_of_order_drops_point (growCap : Nat → Nat) :
    (timeSeries.Write growCap (cpuStore [cpuPoint 10 1, cpuPoint 20 2, cpuPoint 30 3] 3)
        "cpu" [("host", "a")] (float64.finite 9) 15).map cpuPoints
      = Except.ok (some [cpuPoint 10 1, cpuPoint 30 3, cpuPoint 20 2, cpuPoint 30 3]) ∧
    cpuPoint 15 9 ∉ [cpuPoint 10 1, cpuPoint 30 3, cpuPoint 20 2, cpuPoint 30 3] ∧
    ¬ List.Perm [cpuPoint 10 1, cpuPoint 30 3, cpuPoint 20 2, cpuPoint 30 3]
      ([cpuPoint 10 1, cpuPoint 20 2, cpuPoint 30 3] ++ [cpuPoint 15 9]) :=
  ⟨rfl, by decide, by decide⟩

/-- C6, lazy creation, on the code: for every store that has no series for
the identity of (name, tags), `Write(name, tags, value, timestamp)` does not
complete; it stops with a nil dereference before any series is created. -/
theorem Write_first_time_panics (growCap : Nat → Nat) (s : timeSeries) (name : String)
    (tags : List (String × String)) (value : float64) (timestamp : Int)
    (h : s.series (getSeriesIdentifier name tags) = none) :
    s.Write growCap name tags value timestamp = Except.error Panic.nilDereference :=
  Write_of_absent growCap s name tags value timestamp h

/-- C6 at the store that holds no series and the write
`("cpu", {"host": "a"}, 1.0, 100)`. -/
theorem Write_first_time_panics_witness :
    timeSeries.empty.series (getSeriesIdentifier "cpu" [("host", "a")]) = none ∧
    timeSeries.empty.Write (fun c => 2 * c) "cpu" [("host", "a")] (float64.finite 1) 100 =
      Except.error Panic.nilDereference :=
  ⟨rfl, Write_first_time_panics (fun c => 2 * c) timeSeries.empty "cpu" [("host", "a")]
    (float64.finite 1) 100 rfl⟩

/-- C7 as stated fails: on the series (10, 1.0) the completed
`Write(2.0, 10)` leaves (10, 1.0), (10, 1.0).  The index the claim names, the
number of existing points with timeStamp at most 10, is 1, and the element
stored there is not the new point (10, 2.0). -/
theorem Write_equal_timestamp_counterexample :
    nonDecreasing [cpuPoint 10 1] ∧
    (timeSeries.Write (fun c => 2 * c) (cpuStore [cpuPoint 10 1] 1) "cpu" [("host", "a")]
        (float64.finite 2) 10).map cpuPoints
      = Except.ok (some [cpuPoint 10 1, cpuPoint 10 1]) ∧
    countUpTo [cpuPoint 10 1] 10 = 1 ∧
    [cpuPoint 10 1, cpuPoint 10 1].get? (countUpTo [cpuPoint 10 1] 10) ≠
      some (cpuPoint 10 2) ∧
    [cpuPoint 10 1, cpuPoint 10 1] ≠ [cpuPoint 10 1, cpuPoint 10 2] := by
  decide

/-- C7 as amended: for every store in which the series of an identity is
non-empty and non-decreasing by timeStamp, a `Write` with timestamp `ts`
completes and opens one slot at index `k`, the number of existing points with
timeStamp strictly below `ts` (the first index whose timeStamp is `>= ts`,
so before every existing point that shares the timestamp): the new dataPoints
have one element more and, with the element at index `k` removed, are the
previous dataPoints.  When `ts` is greater than the last stored timeStamp,
`k` is also the number of points with timeStamp at most `ts` and the element
at index `k` is the new point. -/
theorem Write_opens_slot (growCap : Nat → Nat) (s : timeSeries) (name : String)
    (tags : List (String × String)) (value : float64) (timestamp : Int) (timeseries : series)
    (hs : s.series (getSeriesIdentifier name tags) = some timeseries)
    (hne : timeseries.dataPoints ≠ [])
    (hsorted : nonDecreasing timeseries.dataPoints) :
    ∃ s1 timeseries1,
      s.Write growCap name tags value timestamp = Except.ok s1 ∧
      s1.series (getSeriesIdentifier name tags) = some timeseries1 ∧
      timeseries1.dataPoints.length = timeseries.dataPoints.length + 1 ∧
      timeseries1.dataPoints.eraseIdx (countBelow timeseries.dataPoints timestamp) =
        timeseries.dataPoints ∧
      (∀ latest, timeseries.dataPoints.getLast? = some latest →
        latest.timeStamp < timestamp →
          countBelow timeseries.dataPoints timestamp =
            countUpTo timeseries.dataPoints timestamp ∧
          timeseries1.dataPoints.get? (countUpTo timeseries.dataPoints timestamp) =
            some ⟨name, value, timestamp, tags⟩) := by
  have hl := List.getLast?_eq_getLast timeseries.dataPoints hne
  generalize timeseries.dataPoints.getLast hne = latest0 at hl
  rw [Write_existing growCap s name tags value timestamp timeseries hs]
  by_cases hlt : latest0.timeStamp < timestamp
  · have hall : ∀ p ∈ timeseries.dataPoints, p.timeStamp < timestamp := fun p hp =>
      lt_of_le_of_lt (le_last_of_nonDecreasing _ _ hl hsorted p hp) hlt
    rw [insertDataPoint_fast growCap timeseries _ timestamp latest0 hl hlt]
    refine ⟨_, _, rfl, store_series_self _ _ _, by simp, ?_, ?_⟩
    · rw [countBelow_eq_length _ _ hall]
      simp [List.eraseIdx_append_of_length_le]
    · intro _ _ _
      rw [countBelow_eq_length _ _ hall, countUpTo_eq_length _ _ hall]
      simp
  · rw [insertDataPoint_slow growCap timeseries _ timestamp latest0 hl hlt]
    have hk := countBelow_le_length timeseries.dataPoints timestamp
    refine ⟨_, _, rfl, store_series_self _ _ _, ?_, ?_, ?_⟩
    · rw [Search_tsGE _ hsorted]
      simp [List.length_take, List.length_drop]
      omega
    · rw [Search_tsGE _ hsorted]
      exact eraseIdx_insert_at _ _ _ hk
    · intro latest hl1 hlt1
      rw [hl] at hl1
      cases hl1
      exact absurd hlt1 hlt

/-- C7 as amended, at the series (10, 1.0), (20, 2.0) and the write
`Write(5.0, 10)`, whose timestamp ties with the first point: the slot opens
at index 0. -/
theorem Write_opens_slot_witness :
    (cpuStore [cpuPoint 10 1, cpuPoint 20 2] 2).series
        (getSeriesIdentifier "cpu" [("host", "a")]) =
      some ⟨[cpuPoint 10 1, cpuPoint 20 2], 2⟩ ∧
    [cpuPoint 10 1, cpuPoint 20 2] ≠ [] ∧
    nonDecreasing [cpuPoint 10 1, cpuPoint 20 2] ∧
    countBelow [cpuPoint 10 1, cpuPoint 20 2] 10 = 0 ∧
    ∃ s1 timeseries1,
      (cpuStore [cpuPoint 10 1, cpuPoint 20 2] 2).Write (fun c => 2 * c) "cpu"
        [("host", "a")] (float64.finite 5) 10 = Except.ok s1 ∧
      s1.series (getSeriesIdentifier "cpu" [("host", "a")]) = some timeseries1 ∧
      timeseries1.dataPoints.length = 2 + 1 ∧
      timeseries1.dataPoints.eraseIdx (countBelow [cpuPoint 10 1, cpuPoint 20 2] 10) =
        [cpuPoint 10 1, cpuPoint 20 2] ∧
      (∀ latest, [cpuPoint 10 1, cpuPoint 20 2].getLast? = some latest →
        latest.timeStamp < 10 →
          countBelow [cpuPoint 10 1, cpuPoint 20 2] 10 =
            countUpTo [cpuPoint 10 1, cpuPoint 20 2] 10 ∧
          timeseries1.dataPoints.get? (countUpTo [cpuPoint 10 1, cpuPoint 20 2] 10) =
            some ⟨"cpu", float64.finite 5, 10, [("host", "a")]⟩) :=
  ⟨cpuStore_series _ _, by decide, by decide, by decide,
    Write_opens_slot (fun c => 2 * c) (cpuStore [cpuPoint 10 1, cpuPoint 20 2] 2) "cpu"
      [("host", "a")] (float64.finite 5) 10 ⟨[cpuPoint 10 1, cpuPoint 20 2], 2⟩
      (cpuStore_series _ _) (by decide) (by decide)⟩

/-- C8 as stated fails: on the non-decreasing series (10, 1.0), (20, 2.0),
(30, 3.0), (40, 4.0), (50, 5.0), `Query(55, 35)` has start > end and does not
return the empty sequence; it fails on its slice bounds.  The points at 40
and 50 lie strictly between end and start: five points are below start and
only three are at most end, so the lower index lies beyond any upper index
for `end`, and `Query` does not compare start with end. -/
theorem Query_inverted_range_counterexample :
    (35 : Int) < 55 ∧
    nonDecreasing [cpuPoint 10 1, cpuPoint 20 2, cpuPoint 30 3, cpuPoint 40 4, cpuPoint 50 5] ∧
    countBelow [cpuPoint 10 1, cpuPoint 20 2, cpuPoint 30 3, cpuPoint 40 4, cpuPoint 50 5] 55
      = 5 ∧
    countUpTo [cpuPoint 10 1, cpuPoint 20 2, cpuPoint 30 3, cpuPoint 40 4, cpuPoint 50 5] 35
      = 3 ∧
    (cpuStore [cpuPoint 10 1, cpuPoint 20 2, cpuPoint 30 3, cpuPoint 40 4, cpuPoint 50 5]
        5).Query "cpu" [("host", "a")] 55 35
      = Except.error Panic.sliceBoundsOutOfRange := by
  decide

/-- C8 as amended: `Query` does not compare start with end.  For every store,
name, tag set and every start > end, `Query` returns the empty sequence,
without failing, when the store has no series under the identity; and when
the series there is non-decreasing and holds a point whose timeStamp lies
strictly between end and start, `Query` does not return the empty
sequence. -/
theorem Query_inverted_range_unchecked (s : timeSeries) (name : String)
    (tags : List (String × String)) (start endTs : Int) (hse : endTs < start) :
    (s.series (getSeriesIdentifier name tags) = none →
      s.Query name tags start endTs = Except.ok []) ∧
    (∀ timeseries, s.series (getSeriesIdentifier name tags) = some timeseries →
      nonDecreasing timeseries.dataPoints →
      (∃ q ∈ timeseries.dataPoints, endTs < q.timeStamp ∧ q.timeStamp < start) →
      s.Query name tags start endTs ≠ Except.ok []) := by
  refine ⟨Query_of_absent s name tags start endTs, ?_⟩
  rintro timeseries hs hsorted ⟨q, hq, hlo, _⟩ hQ
  have hne : timeseries.dataPoints ≠ [] := List.ne_nil_of_mem hq
  obtain ⟨p, hp, hpe⟩ :=
    Query_inverted_range_only s name tags start endTs timeseries hs hne hsorted hse hQ
  rw [hp] at hq
  have hqp : q = p := by simpa using hq
  rw [hqp] at hlo
  omega

/-- C8 as amended, at the series (10, 1.0), (20, 2.0), (30, 3.0) and the
range start = 25, end = 15: the identity `("mem", {"host": "a"})` has no
series and its query returns the empty sequence; the point at 20 lies between
end and start and the query of `("cpu", {"host": "a"})` does not. -/
theorem Query_inverted_range_unchecked_witness :
    (15 : Int) < 25 ∧
    (cpuStore [cpuPoint 10 1, cpuPoint 20 2, cpuPoint 30 3] 3).Query "mem" [("host", "a")]
      25 15 = Except.ok [] ∧
    (cpuStore [cpuPoint 10 1, cpuPoint 20 2, cpuPoint 30 3] 3).Query "cpu" [("host", "a")]
      25 15 ≠ Except.ok [] :=
  ⟨by decide,
    (Query_inverted_range_unchecked (cpuStore [cpuPoint 10 1, cpuPoint 20 2, cpuPoint 30 3] 3)
      "mem" [("host", "a")] 25 15 (by decide)).1 (by decide),
    (Query_inverted_range_unchecked (cpuStore [cpuPoint 10 1, cpuPoint 20 2, cpuPoint 30 3] 3)
      "cpu" [("host", "a")] 25 15 (by decide)).2
      ⟨[cpuPoint 10 1, cpuPoint 20 2, cpuPoint 30 3], 3⟩ (cpuStore_series _ _) (by decide)
      ⟨cpuPoint 20 2, by decide, by decide, by decide⟩⟩

/-- C9, absence is empty: for every store, name and tag set such that the
store has no series under `getSeriesIdentifier(name, tags)`, and every start
and end, `Query` returns the empty sequence and does not fail. -/
theorem Query_absent_is_empty (s : timeSeries) (name : String)
    (tags : List (String × String)) (start endTs : Int)
    (h : s.series (getSeriesIdentifier name tags) = none) :
    s.Query name tags start endTs = Except.ok [] :=
  Query_of_absent s name tags start endTs h

/-- C9 at a store that holds the series of `("cpu", {"host": "a"})` only and
the query `("mem", {"host": "a"}, 0, 1000)`. -/
theorem Query_absent_is_empty_witness :
    (cpuStore [cpuPoint 10 1] 1).series (getSeriesIdentifier "mem" [("host", "a")]) = none ∧
    (cpuStore [cpuPoint 10 1] 1).Query "mem" [("host", "a")] 0 1000 = Except.ok [] :=
  ⟨by decide, Query_absent_is_empty (cpuStore [cpuPoint 10 1] 1) "mem" [("host", "a")] 0 1000
    (by decide)⟩

/-- C10, query never fails, evaluated on the code.  On the non-decreasing
series (10, 1.0), (20, 2.0), whatever its spare capacity, `Query(30, 40)`
computes indexToStartAt = 2 and indexToEndAt = 0, so that
indexToStartAt <= indexToEndAt + 1 does not hold, and the slice expression
`dataPoints[2:1]` fails. -/
theorem Query_slice_bounds_fail (extra : Nat) :
    nonDecreasing [cpuPoint 10 1, cpuPoint 20 2] ∧
    sort.Search 2 (tsGE [cpuPoint 10 1, cpuPoint 20 2] 30) = 2 ∧
    sort.Search 2 (tsLE [cpuPoint 10 1, cpuPoint 20 2] 40) = 0 ∧
    (cpuStore [cpuPoint 10 1, cpuPoint 20 2] (extra + 2)).Query "cpu" [("host", "a")] 30 40
      = Except.error Panic.sliceBoundsOutOfRange := by
  have h1 : sort.Search 2 (tsGE [cpuPoint 10 1, cpuPoint 20 2] 30) = 2 := by decide
  have h2 : sort.Search 2 (tsLE [cpuPoint 10 1, cpuPoint 20 2] 40) = 0 := by decide
  refine ⟨by decide, h1, h2, ?_⟩
  rw [Query_existing _ _ _ _ _ _ (cpuStore_series _ _)]
  show sliceExpr [cpuPoint 10 1, cpuPoint 20 2] (extra + 2)
    (sort.Search 2 (tsGE [cpuPoint 10 1, cpuPoint 20 2] 30))
    (sort.Search 2 (tsLE [cpuPoint 10 1, cpuPoint 20 2] 40) + 1) = _
  rw [h1, h2]
  exact sliceExpr_inverted _ _ _ _ (by decide)

/-! ## The order of strings and sort.Strings -/

theorem Char_toNat_inj (a b : Char) (h : a.toNat = b.toNat) : a = b := by
  apply Char.ext
  apply UInt32.ext
  exact h

theorem charsLE_refl : ∀ a : List Char, charsLE a a = true
  | [] => rfl
  | c :: cs => by simp [charsLE, charsLE_refl cs]

theorem charsLE_total : ∀ a b : List Char, charsLE a b = true ∨ charsLE b a = true
  | [], _ => Or.inl rfl
  | _ :: _, [] => Or.inr rfl
  | a :: as, b :: bs => by
    simp only [charsLE]
    by_cases h1 : a.toNat < b.toNat
    · simp [h1]
    · by_cases h2 : b.toNat < a.toNat
      · simp [h2]
      · simp only [h1, h2, if_false]
        exact charsLE_total as bs

theorem charsLE_antisymm : ∀ a b : List Char, charsLE a b = true → charsLE b a = true → a = b
  | [], [], _, _ => rfl
  | [], _ :: _, _, h => by simp [charsLE] at h
  | _ :: _, [], h, _ => by simp [charsLE] at h
  | a :: as, b :: bs, h1, h2 => by
    simp only [charsLE] at h1 h2
    by_cases hab : a.toNat < b.toNat
    · have : ¬ b.toNat < a.toNat := by omega
      simp [hab, this] at h2
    · by_cases hba : b.toNat < a.toNat
      · simp [hab, hba] at h1
      · simp only [hab, hba, if_false] at h1 h2
        have hc : a = b := Char_toNat_inj a b (by omega)
        rw [hc, charsLE_antisymm as bs h1 h2]

theorem charsLE_trans : ∀ a b c : List Char,
    charsLE a b = true → charsLE b c = true → charsLE a c = true
  | [], _, _, _, _ => by simp [charsLE]
  | _ :: _, [], _, h, _ => by simp [charsLE] at h
  | _ :: _, _ :: _, [], _, h => by simp [charsLE] at h
  | a :: as, b :: bs, c :: cs, h1, h2 => by
    simp only [charsLE] at h1 h2 ⊢
    by_cases hab : a.toNat < b.toNat
    · by_cases hbc : b.toNat < c.toNat
      · have : a.toNat < c.toNat := by omega
        simp [this]
      · by_cases hcb : c.toNat < b.toNat
        · simp [hbc, hcb] at h2
        · have : a.toNat < c.toNat := by omega
          simp [this]
    · by_cases hba : b.toNat < a.toNat
      · simp [hab, hba] at h1
      · simp only [hab, hba, if_false] at h1
        by_cases hbc : b.toNat < c.toNat
        · have : a.toNat < c.toNat := by omega
          simp [this]
        · by_cases hcb : c.toNat < b.toNat
          · simp [hbc, hcb] at h2
          · simp only [hbc, hcb, if_false] at h2
            have h3 : ¬ a.toNat < c.toNat := by omega
            have h4 : ¬ c.toNat < a.toNat := by omega
            simp only [h3, h4, if_false]
            exact charsLE_trans as bs cs h1 h2

theorem strLE_total (a b : String) : strLE a b = true ∨ strLE b a = true :=
  charsLE_total a.toList b.toList

theorem strLE_trans (a b c : String) (h1 : strLE a b = true) (h2 : strLE b c = true) :
    strLE a c = true :=
  charsLE_trans a.toList b.toList c.toList h1 h2

theorem strLE_antisymm (a b : String) (h1 : strLE a b = true) (h2 : strLE b a = true) :
    a = b :=
  String.ext (charsLE_antisymm a.toList b.toList h1 h2)

/-- `sort.Strings` returns its argument in increasing order. -/
theorem sort.Strings_sorted (a : List String) :
    (sort.Strings a).Sorted (fun x y => strLE x y = true) := by
  haveI : IsTotal String (fun x y => strLE x y = true) := ⟨strLE_total⟩
  haveI : IsTrans String (fun x y => strLE x y = true) := ⟨strLE_trans⟩
  exact List.sorted_insertionSort _ a

theorem sort.Strings_perm (a : List String) : (sort.Strings a).Perm a :=
  List.perm_insertionSort _ a

/-- `sort.Strings` depends on the strings it is given, not on their order. -/
theorem sort.Strings_of_perm (a b : List String) (h : a.Perm b) :
    sort.Strings a = sort.Strings b := by
  haveI : IsAntisymm String (fun x y => strLE x y = true) := ⟨strLE_antisymm⟩
  exact List.eq_of_perm_of_sorted
    (((sort.Strings_perm a).trans h).trans (sort.Strings_perm b).symm)
    (sort.Strings_sorted a) (sort.Strings_sorted b)

theorem getSeriesIdentifier_of_perm (name : String) (tags1 tags2 : List (String × String))
    (h : tags1.Perm tags2) :
    getSeriesIdentifier name tags1 = getSeriesIdentifier name tags2 := by
  simp only [getSeriesIdentifier]
  rw [sort.Strings_of_perm _ _ (h.map _)]

/-! ## The characters of an identifier -/

theorem getSeriesIdentifier_eq (name : String) (tags : List (String × String)) :
    getSeriesIdentifier name tags =
      name ++ "|" ++ strings.Join (sort.Strings (tags.map tagEntry)) "|" := rfl

theorem joinChars_cons_append (x y : List Char) (rest : List (List Char)) :
    joinChars ((x ++ '|' :: y) :: rest) = x ++ '|' :: joinChars (y :: rest) := by
  cases rest with
  | nil => simp [joinChars]
  | cons z rest => simp [joinChars, List.append_assoc]

theorem intercalate_go_toList (l : List String) :
    ∀ acc : String, (String.intercalate.go acc "|" l).toList =
      joinChars (acc.toList :: l.map String.toList) := by
  induction l with
  | nil => intro acc; simp [String.intercalate.go, joinChars]
  | cons a l ih =>
    intro acc
    rw [String.intercalate.go, ih]
    have : (acc ++ "|" ++ a).toList = acc.toList ++ '|' :: a.toList := by
      simp [String.toList, String.data_append]
    rw [this, joinChars_cons_append]
    simp [joinChars]

theorem Join_toList (l : List String) :
    (strings.Join l "|").toList = joinChars (l.map String.toList) := by
  cases l with
  | nil => simp [strings.Join, String.intercalate, joinChars]
  | cons a l =>
    show (String.intercalate.go a "|" l).toList = _
    rw [intercalate_go_toList]
    rfl

theorem tagEntry_toList (kv : String × String) :
    (tagEntry kv).toList = kv.1.toList ++ '=' :: kv.2.toList := by
  simp [tagEntry, String.toList, String.data_append]

theorem getSeriesIdentifier_toList (name : String) (tags : List (String × String)) :
    (getSeriesIdentifier name tags).toList =
      name.toList ++ '|' :: joinChars ((sort.Strings (tags.map tagEntry)).map String.toList) := by
  rw [getSeriesIdentifier_eq]
  have : ∀ a b : String, (a ++ "|" ++ b).toList = a.toList ++ '|' :: b.toList := by
    intro a b; simp [String.toList, String.data_append]
  rw [this, Join_toList]

/-- Cutting at the first occurrence of a separator. -/
theorem split_at_separator (c : Char) :
    ∀ (a a1 b b1 : List Char), c ∉ a → c ∉ a1 → a ++ c :: b = a1 ++ c :: b1 →
      a = a1 ∧ b = b1
  | [], [], _, _, _, _, h => by simpa using h
  | [], x :: a1, _, _, _, h1, h => by
    simp at h
    simp [h.1] at h1
  | x :: a, [], _, _, h0, _, h => by
    simp at h
    simp [h.1] at h0
  | x :: a, y :: a1, b, b1, h0, h1, h => by
    simp only [List.cons_append, List.cons.injEq] at h
    have := split_at_separator c a a1 b b1 (by simp at h0; tauto) (by simp at h1; tauto) h.2
    simp [h.1, this.1, this.2]

theorem joinChars_cons_ne_nil (x : List Char) (rest : List (List Char)) (hx : x ≠ []) :
    joinChars (x :: rest) ≠ [] := by
  cases rest with
  | nil => simpa [joinChars] using hx
  | cons y rest => simp [joinChars]

/-- The strings `sort.Strings` returns inside `getSeriesIdentifier` are the
entries of the tag set, listed in the order of their `key=value` strings. -/
theorem sort_Strings_entries (tags : List (String × String)) :
    sort.Strings (tags.map tagEntry) =
      (tags.insertionSort (fun a b => strLE (tagEntry a) (tagEntry b) = true)).map tagEntry :=
  (List.map_insertionSort (fun a b => strLE (tagEntry a) (tagEntry b) = true)
    (fun x y => strLE x y = true) tagEntry tags (fun _ _ _ _ => Iff.rfl)).symm

theorem joinChars_entries_cons (a b : String × String) (es : List (String × String)) :
    joinChars (((a :: b :: es).map tagEntry).map String.toList) =
      a.1.toList ++ '=' ::
        (a.2.toList ++ '|' :: joinChars (((b :: es).map tagEntry).map String.toList)) := by
  show (tagEntry a).toList ++ '|' :: joinChars (((b :: es).map tagEntry).map String.toList) = _
  rw [tagEntry_toList, List.append_assoc]
  rfl

theorem joinChars_entries_single (a : String × String) :
    joinChars (([a].map tagEntry).map String.toList) =
      a.1.toList ++ '=' :: a.2.toList := by
  show (tagEntry a).toList = _
  rw [tagEntry_toList]

/-- The joined entries are read back without ambiguity when no key contains
`=` and no value contains `|`: a key ends at the first `=`, the value after
it ends at the next `|`. -/
theorem entries_join_injective :
    ∀ (es1 es2 : List (String × String)),
      (∀ kv ∈ es1, '=' ∉ kv.1.toList ∧ '|' ∉ kv.2.toList) →
      (∀ kv ∈ es2, '=' ∉ kv.1.toList ∧ '|' ∉ kv.2.toList) →
      joinChars ((es1.map tagEntry).map String.toList) =
        joinChars ((es2.map tagEntry).map String.toList) →
      es1 = es2
  | [], [], _, _, _ => rfl
  | [], b :: es2, _, _, h => by
    have hne := joinChars_cons_ne_nil (tagEntry b).toList
      ((es2.map tagEntry).map String.toList) (by rw [tagEntry_toList]; simp)
    exact absurd h.symm (by simpa using hne)
  | a :: es1, [], _, _, h => by
    have hne := joinChars_cons_ne_nil (tagEntry a).toList
      ((es1.map tagEntry).map String.toList) (by rw [tagEntry_toList]; simp)
    exact absurd h (by simpa using hne)
  | [a], [b], h1, h2, h => by
    rw [joinChars_entries_single, joinChars_entries_single] at h
    have hs := split_at_separator '=' _ _ _ _ (h1 a (by simp)).1 (h2 b (by simp)).1 h
    rw [Prod.ext (String.ext hs.1) (String.ext hs.2)]
  | [a], b :: b1 :: es2, h1, h2, h => by
    rw [joinChars_entries_single, joinChars_entries_cons] at h
    have hs := split_at_separator '=' _ _ _ _ (h1 a (by simp)).1 (h2 b (by simp)).1 h
    have : '|' ∈ a.2.toList := by rw [hs.2]; simp
    exact absurd this (h1 a (by simp)).2
  | a :: a1 :: es1, [b], h1, h2, h => by
    rw [joinChars_entries_single, joinChars_entries_cons] at h
    have hs := split_at_separator '=' _ _ _ _ (h1 a (by simp)).1 (h2 b (by simp)).1 h
    have : '|' ∈ b.2.toList := by rw [← hs.2]; simp
    exact absurd this (h2 b (by simp)).2
  | a :: a1 :: es1, b :: b1 :: es2, h1, h2, h => by
    rw [joinChars_entries_cons, joinChars_entries_cons] at h
    have hs := split_at_separator '=' _ _ _ _ (h1 a (by simp)).1 (h2 b (by simp)).1 h
    have hv := split_at_separator '|' _ _ _ _ (h1 a (by simp)).2 (h2 b (by simp)).2 hs.2
    have ih := entries_join_injective (a1 :: es1) (b1 :: es2)
      (fun z hz => h1 z (List.mem_cons_of_mem _ hz))
      (fun z hz => h2 z (List.mem_cons_of_mem _ hz)) hv.2
    rw [Prod.ext (String.ext hs.1) (String.ext hv.1), ih]

theorem getSeriesIdentifier_inj_of_separator_free (n1 n2 : String)
    (t1 t2 : List (String × String))
    (hn1 : '|' ∉ n1.toList) (hn2 : '|' ∉ n2.toList)
    (ht1 : ∀ kv ∈ t1, '=' ∉ kv.1.toList ∧ '|' ∉ kv.2.toList)
    (ht2 : ∀ kv ∈ t2, '=' ∉ kv.1.toList ∧ '|' ∉ kv.2.toList)
    (h : getSeriesIdentifier n1 t1 = getSeriesIdentifier n2 t2) :
    n1 = n2 ∧ t1.Perm t2 := by
  have hl := congrArg String.toList h
  rw [getSeriesIdentifier_toList, getSeriesIdentifier_toList, sort_Strings_entries,
    sort_Strings_entries] at hl
  have hsplit := split_at_separator '|' _ _ _ _ hn1 hn2 hl
  have hp1 := List.perm_insertionSort (fun a b => strLE (tagEntry a) (tagEntry b) = true) t1
  have hp2 := List.perm_insertionSort (fun a b => strLE (tagEntry a) (tagEntry b) = true) t2
  have hes := entries_join_injective _ _
    (fun kv hkv => ht1 kv (hp1.subset hkv)) (fun kv hkv => ht2 kv (hp2.subset hkv)) hsplit.2
  exact ⟨String.ext hsplit.1, (hp1.symm.trans (hes ▸ List.Perm.refl _)).trans hp2⟩

/-- Each of the three restrictions of `getSeriesIdentifier_inj_of_separator_free`
is needed: a name containing `|` and a key containing `=` also give
collisions (a value containing `|` is the third case). -/
theorem getSeriesIdentifier_collisions :
    getSeriesIdentifier "cpu|host=a" [("region", "us")] =
      getSeriesIdentifier "cpu" [("host", "a"), ("region", "us")] ∧
    getSeriesIdentifier "cpu" [("a=b", "c")] = getSeriesIdentifier "cpu" [("a", "b=c")] ∧
    getSeriesIdentifier "cpu" [("host", "a|region=us")] =
      getSeriesIdentifier "cpu" [("host", "a"), ("region", "us")] := by
  decide

/-! ## The order of the tag entries -/

/-- In the order of the `key=value` strings, keys all of whose characters
sort above `=` are compared before the separator is reached. -/
theorem charsLE_of_entry_le :
    ∀ (k1 k2 v1 v2 : List Char),
      (∀ c ∈ k1, '='.toNat < c.toNat) → (∀ c ∈ k2, '='.toNat < c.toNat) →
      charsLE (k1 ++ '=' :: v1) (k2 ++ '=' :: v2) = true → charsLE k1 k2 = true
  | [], _, _, _, _, _, _ => by simp [charsLE]
  | a :: k1, [], v1, v2, h1, _, h => by
    have ha := h1 a (by simp)
    have h61 : '='.toNat = 61 := by decide
    rw [h61] at ha
    simp only [List.cons_append, List.nil_append, charsLE, h61] at h
    have h3 : ¬ a.toNat < 61 := by omega
    simp [h3, ha] at h
  | a :: k1, b :: k2, v1, v2, h1, h2, h => by
    simp only [List.cons_append, charsLE] at h ⊢
    by_cases hab : a.toNat < b.toNat
    · simp [hab]
    · by_cases hba : b.toNat < a.toNat
      · simp [hab, hba] at h
      · simp only [hab, hba, if_false] at h ⊢
        exact charsLE_of_entry_le k1 k2 v1 v2
          (fun c hc => h1 c (List.mem_cons_of_mem _ hc))
          (fun c hc => h2 c (List.mem_cons_of_mem _ hc)) h

theorem strLE_key_of_entry (kv1 kv2 : String × String)
    (h1 : ∀ c ∈ kv1.1.toList, '='.toNat < c.toNat)
    (h2 : ∀ c ∈ kv2.1.toList, '='.toNat < c.toNat)
    (h : strLE (tagEntry kv1) (tagEntry kv2) = true) : strLE kv1.1 kv2.1 = true := by
  unfold strLE at h ⊢
  rw [tagEntry_toList, tagEntry_toList] at h
  exact charsLE_of_entry_le _ _ _ _ h1 h2 h

/-! ## The claims C11 to C19 -/

/-- C11, tag-order independence: for every name and every two listings of the
same tag entries (one a reordering of the other), `getSeriesIdentifier`
returns the same identifier, so a lookup in any store and `Query` resolve
both listings to the same series. -/
theorem getSeriesIdentifier_tag_order_independent (name : String)
    (tags1 tags2 : List (String × String)) (h : tags1.Perm tags2)
    (s : timeSeries) (start endTs : Int) :
    getSeriesIdentifier name tags1 = getSeriesIdentifier name tags2 ∧
    s.series (getSeriesIdentifier name tags1) = s.series (getSeriesIdentifier name tags2) ∧
    s.Query name tags1 start endTs = s.Query name tags2 start endTs := by
  have hid := getSeriesIdentifier_of_perm name tags1 tags2 h
  refine ⟨hid, by rw [hid], ?_⟩
  simp only [timeSeries.Query, hid]

/-- C11 at the tag set of the specification, `{"host": "a", "region": "us"}`
listed in both orders. -/
theorem getSeriesIdentifier_tag_order_independent_witness :
    [("host", "a"), ("region", "us")].Perm [("region", "us"), ("host", "a")] ∧
    getSeriesIdentifier "cpu" [("host", "a"), ("region", "us")] =
      getSeriesIdentifier "cpu" [("region", "us"), ("host", "a")] ∧
    (cpuStore [cpuPoint 10 1] 1).series
        (getSeriesIdentifier "cpu" [("host", "a"), ("region", "us")]) =
      (cpuStore [cpuPoint 10 1] 1).series
        (getSeriesIdentifier "cpu" [("region", "us"), ("host", "a")]) ∧
    (cpuStore [cpuPoint 10 1] 1).Query "cpu" [("host", "a"), ("region", "us")] 0 100 =
      (cpuStore [cpuPoint 10 1] 1).Query "cpu" [("region", "us"), ("host", "a")] 0 100 :=
  ⟨by decide, getSeriesIdentifier_tag_order_independent "cpu"
    [("host", "a"), ("region", "us")] [("region", "us"), ("host", "a")] (by decide)
    (cpuStore [cpuPoint 10 1] 1) 0 100⟩

/-- C12 as stated fails: the name "cpu" with the one tag
`{"host": "a|region=us"}` and the name "cpu" with the two tags
`{"host": "a", "region": "us"}` have the same identifier,
"cpu|host=a|region=us", although the tag sets differ. -/
theorem getSeriesIdentifier_collision_counterexample :
    getSeriesIdentifier "cpu" [("host", "a|region=us")] = "cpu|host=a|region=us" ∧
    getSeriesIdentifier "cpu" [("host", "a"), ("region", "us")] = "cpu|host=a|region=us" ∧
    ¬ ("cpu" = "cpu" ∧
      [("host", "a|region=us")].Perm [("host", "a"), ("region", "us")]) := by
  decide

/-- C12 as amended: for all names that contain no `|` and all tag sets whose
keys contain no `=` and whose values contain no `|`, the identifiers of
(n1, t1) and (n2, t2) are equal if and only if n1 = n2 and t1, t2 hold the
same key/value pairs. -/
theorem getSeriesIdentifier_eq_iff (n1 n2 : String) (t1 t2 : List (String × String))
    (hn1 : '|' ∉ n1.toList) (hn2 : '|' ∉ n2.toList)
    (ht1 : ∀ kv ∈ t1, '=' ∉ kv.1.toList ∧ '|' ∉ kv.2.toList)
    (ht2 : ∀ kv ∈ t2, '=' ∉ kv.1.toList ∧ '|' ∉ kv.2.toList) :
    getSeriesIdentifier n1 t1 = getSeriesIdentifier n2 t2 ↔ n1 = n2 ∧ t1.Perm t2 := by
  constructor
  · exact getSeriesIdentifier_inj_of_separator_free n1 n2 t1 t2 hn1 hn2 ht1 ht2
  · rintro ⟨rfl, hp⟩
    exact getSeriesIdentifier_of_perm n1 t1 t2 hp

/-- C12 as amended, at the names "cpu", "mem" and the tag sets
`{"host|rack": "a=1", "region": "us"}` (a key with `|`, a value with `=`) and
`{"host": "a"}`. -/
theorem getSeriesIdentifier_eq_iff_witness :
    '|' ∉ "cpu".toList ∧ '|' ∉ "mem".toList ∧
    (∀ kv ∈ [("host|rack", "a=1"), ("region", "us")],
      '=' ∉ kv.1.toList ∧ '|' ∉ kv.2.toList) ∧
    (∀ kv ∈ [("host", "a")], '=' ∉ kv.1.toList ∧ '|' ∉ kv.2.toList) ∧
    (getSeriesIdentifier "cpu" [("host|rack", "a=1"), ("region", "us")] =
        getSeriesIdentifier "mem" [("host", "a")] ↔
      "cpu" = "mem" ∧ [("host|rack", "a=1"), ("region", "us")].Perm [("host", "a")]) :=
  ⟨by decide, by decide, by decide, by decide,
    getSeriesIdentifier_eq_iff "cpu" "mem" [("host|rack", "a=1"), ("region", "us")]
      [("host", "a")] (by decide) (by decide) (by decide) (by decide)⟩

/-- C13 as stated fails: on the series (10, 1.0) the call
`Write(NaN, 20)` is not rejected; it completes and the series then holds
the point with value NaN. -/
theorem Write_nan_counterexample :
    (timeSeries.Write (fun c => 2 * c) (cpuStore [cpuPoint 10 1] 1) "cpu" [("host", "a")]
        float64.nan 20).map cpuPoints
      = Except.ok (some [cpuPoint 10 1, ⟨"cpu", float64.nan, 20, [("host", "a")]⟩]) ∧
    cpuPoints (cpuStore [cpuPoint 10 1] 1) ≠
      some [cpuPoint 10 1, ⟨"cpu", float64.nan, 20, [("host", "a")]⟩] := by
  decide

/-- C13 as amended: `Write` does not validate the value.  For every store in
which the series of the identity is non-empty and every value, the
non-finite ones included, `Write` completes and the series holds one point
more; when the timestamp is greater than the last stored timeStamp, the new
last point carries exactly that value. -/
theorem Write_stores_any_value (growCap : Nat → Nat) (s : timeSeries) (name : String)
    (tags : List (String × String)) (value : float64) (timestamp : Int) (timeseries : series)
    (hs : s.series (getSeriesIdentifier name tags) = some timeseries)
    (hne : timeseries.dataPoints ≠ []) :
    ∃ s1 timeseries1,
      s.Write growCap name tags value timestamp = Except.ok s1 ∧
      s1.series (getSeriesIdentifier name tags) = some timeseries1 ∧
      timeseries1.dataPoints.length = timeseries.dataPoints.length + 1 ∧
      (∀ latest, timeseries.dataPoints.getLast? = some latest →
        latest.timeStamp < timestamp →
          timeseries1.dataPoints.getLast? = some ⟨name, value, timestamp, tags⟩) := by
  have hl := List.getLast?_eq_getLast timeseries.dataPoints hne
  generalize timeseries.dataPoints.getLast hne = latest0 at hl
  rw [Write_existing growCap s name tags value timestamp timeseries hs]
  by_cases hlt : latest0.timeStamp < timestamp
  · rw [insertDataPoint_fast growCap timeseries _ timestamp latest0 hl hlt]
    exact ⟨_, _, rfl, store_series_self _ _ _, by simp, fun _ _ _ => by simp⟩
  · rw [insertDataPoint_slow growCap timeseries _ timestamp latest0 hl hlt]
    have hk := sort.Search_le timeseries.dataPoints.length
      (tsGE timeseries.dataPoints timestamp)
    refine ⟨_, _, rfl, store_series_self _ _ _, ?_, ?_⟩
    · simp [List.length_take, List.length_drop]
      omega
    · intro latest hl1 hlt1
      rw [hl] at hl1
      cases hl1
      exact absurd hlt1 hlt

/-- C13 as amended, at the series (10, 1.0) and `Write(+Inf, 20)`. -/
theorem Write_stores_any_value_witness :
    (cpuStore [cpuPoint 10 1] 1).series (getSeriesIdentifier "cpu" [("host", "a")]) =
      some ⟨[cpuPoint 10 1], 1⟩ ∧
    [cpuPoint 10 1] ≠ [] ∧
    ∃ s1 timeseries1,
      (cpuStore [cpuPoint 10 1] 1).Write (fun c => 2 * c) "cpu" [("host", "a")]
        float64.posInf 20 = Except.ok s1 ∧
      s1.series (getSeriesIdentifier "cpu" [("host", "a")]) = some timeseries1 ∧
      timeseries1.dataPoints.length = 1 + 1 ∧
      (∀ latest, [cpuPoint 10 1].getLast? = some latest →
        latest.timeStamp < 20 →
          timeseries1.dataPoints.getLast? =
            some ⟨"cpu", float64.posInf, 20, [("host", "a")]⟩) :=
  ⟨cpuStore_series _ _, by decide,
    Write_stores_any_value (fun c => 2 * c) (cpuStore [cpuPoint 10 1] 1) "cpu"
      [("host", "a")] float64.posInf 20 ⟨[cpuPoint 10 1], 1⟩ (cpuStore_series _ _)
      (by decide)⟩

/-- C14, single creation, evaluated on the code for the schedule in which
the K first-time calls run one after the other (K = 1 included): on the
store that holds no series the first call stops with a nil dereference, so
no series is created and no point is stored, whatever the name, the tag set
and the K >= 1 points. -/
theorem WriteAll_first_time_panics (growCap : Nat → Nat) (name : String)
    (tags : List (String × String)) (first : Int × float64) (rest : List (Int × float64)) :
    timeSeries.WriteAll growCap timeSeries.empty name tags (first :: rest) =
      Except.error Panic.nilDereference ∧
    timeSeries.empty.series (getSeriesIdentifier name tags) = none := by
  refine ⟨?_, rfl⟩
  obtain ⟨timestamp, value⟩ := first
  simp only [timeSeries.WriteAll]
  rw [Write_of_absent growCap timeSeries.empty name tags value timestamp rfl]

/-- C15 as stated fails: on the series (10, 1.0), (20, 2.0) the write
`Write(3.0, 20)` has a timestamp equal to the last one; the result is
(10, 1.0), (20, 2.0), (20, 2.0), not the previous points followed by
(20, 3.0). -/
theorem Write_equal_to_last_counterexample :
    (timeSeries.Write (fun c => 2 * c) (cpuStore [cpuPoint 10 1, cpuPoint 20 2] 2) "cpu"
        [("host", "a")] (float64.finite 3) 20).map cpuPoints
      = Except.ok (some [cpuPoint 10 1, cpuPoint 20 2, cpuPoint 20 2]) ∧
    [cpuPoint 10 1, cpuPoint 20 2, cpuPoint 20 2] ≠
      [cpuPoint 10 1, cpuPoint 20 2] ++ [cpuPoint 20 3] := by
  decide

/-- C15 as amended, fast path: for every store in which the series of an
identity is non-empty, and every `Write` to it whose timestamp is strictly
greater than the timeStamp of the last stored point, the resulting
dataPoints are exactly the previous dataPoints with the new point appended at
the end. -/
theorem Write_fast_path (growCap : Nat → Nat) (s : timeSeries) (name : String)
    (tags : List (String × String)) (value : float64) (timestamp : Int) (timeseries : series)
    (latest : metric)
    (hs : s.series (getSeriesIdentifier name tags) = some timeseries)
    (hl : timeseries.dataPoints.getLast? = some latest)
    (hlt : latest.timeStamp < timestamp) :
    ∃ s1, s.Write growCap name tags value timestamp = Except.ok s1 ∧
      s1.pointsAt (getSeriesIdentifier name tags) =
        some (timeseries.dataPoints ++ [⟨name, value, timestamp, tags⟩]) := by
  rw [Write_existing growCap s name tags value timestamp timeseries hs,
    insertDataPoint_fast growCap timeseries _ timestamp latest hl hlt]
  exact ⟨_, rfl, by simp [timeSeries.pointsAt, store_series_self]⟩

/-- C15 as amended, at the series (10, 1.0), (20, 2.0) and `Write(3.0, 21)`. -/
theorem Write_fast_path_witness :
    [cpuPoint 10 1, cpuPoint 20 2].getLast? = some (cpuPoint 20 2) ∧
    (cpuPoint 20 2).timeStamp < 21 ∧
    ∃ s1, (cpuStore [cpuPoint 10 1, cpuPoint 20 2] 2).Write (fun c => 2 * c) "cpu"
        [("host", "a")] (float64.finite 3) 21 = Except.ok s1 ∧
      s1.pointsAt (getSeriesIdentifier "cpu" [("host", "a")]) =
        some ([cpuPoint 10 1, cpuPoint 20 2] ++ [⟨"cpu", float64.finite 3, 21, [("host", "a")]⟩]) :=
  ⟨by decide, by decide,
    Write_fast_path (fun c => 2 * c) (cpuStore [cpuPoint 10 1, cpuPoint 20 2] 2) "cpu"
      [("host", "a")] (float64.finite 3) 21 ⟨[cpuPoint 10 1, cpuPoint 20 2], 2⟩
      (cpuPoint 20 2) (cpuStore_series _ _) (by decide) (by decide)⟩

/-- C16, lower bound: for every series whose dataPoints are non-decreasing by
timeStamp and every start, the index indexToStartAt that `Query` hands to its
slice expression equals the number of stored points with timeStamp < start;
it is the first index whose timeStamp is >= start (a stored point lies below
the index exactly when its timeStamp is < start), and it equals
len(dataPoints) when no stored point has timeStamp >= start. -/
theorem Query_lower_bound (s : timeSeries) (name : String) (tags : List (String × String))
    (start endTs : Int) (timeseries : series)
    (hs : s.series (getSeriesIdentifier name tags) = some timeseries)
    (hsorted : nonDecreasing timeseries.dataPoints) :
    s.Query name tags start endTs =
      sliceExpr timeseries.dataPoints timeseries.cap
        (sort.Search timeseries.dataPoints.length (tsGE timeseries.dataPoints start))
        (sort.Search timeseries.dataPoints.length (tsLE timeseries.dataPoints endTs) + 1) ∧
    sort.Search timeseries.dataPoints.length (tsGE timeseries.dataPoints start) =
      countBelow timeseries.dataPoints start ∧
    (∀ i p, timeseries.dataPoints.get? i = some p →
      (i < sort.Search timeseries.dataPoints.length (tsGE timeseries.dataPoints start) ↔
        p.timeStamp < start)) ∧
    ((∀ p ∈ timeseries.dataPoints, p.timeStamp < start) →
      sort.Search timeseries.dataPoints.length (tsGE timeseries.dataPoints start) =
        timeseries.dataPoints.length) := by
  refine ⟨Query_existing s name tags start endTs timeseries hs,
    Search_tsGE _ hsorted start, ?_, ?_⟩
  · intro i p hp
    rw [Search_tsGE _ hsorted start]
    have hil : i < timeseries.dataPoints.length := by
      by_contra hc
      rw [List.get?_eq_none.mpr (Nat.le_of_not_lt hc)] at hp
      exact Option.noConfusion hp
    constructor
    · intro hi
      have := tsGE_below _ hsorted start i hi
      simp only [tsGE, hp, decide_eq_false_iff_not] at this
      omega
    · intro hlt
      by_contra hc
      have := tsGE_above _ hsorted start i (Nat.le_of_not_lt hc) hil
      simp only [tsGE, hp, decide_eq_true_eq] at this
      omega
  · intro hall
    rw [Search_tsGE _ hsorted start, countBelow_eq_length _ _ hall]

/-- C16 at the series (10, 1.0), (20, 2.0), (30, 3.0) and start = 15: the
index is 1. -/
theorem Query_lower_bound_witness :
    (cpuStore [cpuPoint 10 1, cpuPoint 20 2, cpuPoint 30 3] 3).series
        (getSeriesIdentifier "cpu" [("host", "a")]) =
      some ⟨[cpuPoint 10 1, cpuPoint 20 2, cpuPoint 30 3], 3⟩ ∧
    nonDecreasing [cpuPoint 10 1, cpuPoint 20 2, cpuPoint 30 3] ∧
    countBelow [cpuPoint 10 1, cpuPoint 20 2, cpuPoint 30 3] 15 = 1 ∧
    sort.Search 3 (tsGE [cpuPoint 10 1, cpuPoint 20 2, cpuPoint 30 3] 15) =
      countBelow [cpuPoint 10 1, cpuPoint 20 2, cpuPoint 30 3] 15 :=
  ⟨cpuStore_series _ _, by decide, by decide,
    (Query_lower_bound (cpuStore [cpuPoint 10 1, cpuPoint 20 2, cpuPoint 30 3] 3) "cpu"
      [("host", "a")] 15 40 ⟨[cpuPoint 10 1, cpuPoint 20 2, cpuPoint 30 3], 3⟩
      (cpuStore_series _ _) (by decide)).2.1⟩

/-- C17 as stated fails: for the tag set `{"a": "1", "a!": "2"}` the
identifier is "cpu|a!=2|a=1": the entry of key "a!" stands before the entry
of key "a", although "a" sorts before "a!" (the character `!` sorts below
`=`). -/
theorem getSeriesIdentifier_key_order_counterexample :
    getSeriesIdentifier "cpu" [("a", "1"), ("a!", "2")] = "cpu|a!=2|a=1" ∧
    sort.Strings ([("a", "1"), ("a!", "2")].map tagEntry) =
      [tagEntry ("a!", "2"), tagEntry ("a", "1")] ∧
    strLE "a" "a!" = true ∧ strLE "a!" "a" = false := by
  decide

/-- C17 as amended: for every name and tag set, the tag entries inside the
identifier returned by `getSeriesIdentifier` are the entries of the tag set
in ascending order of their `key=value` strings; when every character of
every key sorts above `=`, this is the ascending order of the keys. -/
theorem getSeriesIdentifier_entry_order (name : String) (tags : List (String × String)) :
    ∃ entries : List (String × String),
      entries.Perm tags ∧
      getSeriesIdentifier name tags =
        name ++ "|" ++ strings.Join (entries.map tagEntry) "|" ∧
      (entries.map tagEntry).Sorted (fun x y => strLE x y = true) ∧
      ((∀ kv ∈ tags, ∀ c ∈ kv.1.toList, '='.toNat < c.toNat) →
        (entries.map Prod.fst).Sorted (fun x y => strLE x y = true)) := by
  refine ⟨tags.insertionSort (fun a b => strLE (tagEntry a) (tagEntry b) = true),
    List.perm_insertionSort _ tags, ?_, ?_, ?_⟩
  · rw [getSeriesIdentifier_eq, sort_Strings_entries]
  · rw [← sort_Strings_entries]
    exact sort.Strings_sorted _
  · intro hkeys
    have hsorted : ((tags.insertionSort
        (fun a b => strLE (tagEntry a) (tagEntry b) = true)).map tagEntry).Sorted
        (fun x y => strLE x y = true) := by
      rw [← sort_Strings_entries]
      exact sort.Strings_sorted _
    have hmem : ∀ kv ∈ tags.insertionSort
        (fun a b => strLE (tagEntry a) (tagEntry b) = true), kv ∈ tags :=
      fun kv h => (List.perm_insertionSort _ tags).subset h
    generalize tags.insertionSort (fun a b => strLE (tagEntry a) (tagEntry b) = true) = es
      at hsorted hmem
    unfold List.Sorted at hsorted ⊢
    rw [List.pairwise_map] at hsorted ⊢
    refine List.Pairwise.imp_of_mem ?_ hsorted
    intro a b ha hb hab
    exact strLE_key_of_entry a b (hkeys a (hmem a ha)) (hkeys b (hmem b hb)) hab

/-- C17 as amended, at the tag set `{"region": "us", "host": "a"}`, whose
keys consist of letters. -/
theorem getSeriesIdentifier_entry_order_witness :
    (∀ kv ∈ [("region", "us"), ("host", "a")], ∀ c ∈ kv.1.toList, '='.toNat < c.toNat) ∧
    getSeriesIdentifier "cpu" [("region", "us"), ("host", "a")] = "cpu|host=a|region=us" ∧
    ∃ entries : List (String × String),
      entries.Perm [("region", "us"), ("host", "a")] ∧
      getSeriesIdentifier "cpu" [("region", "us"), ("host", "a")] =
        "cpu" ++ "|" ++ strings.Join (entries.map tagEntry) "|" ∧
      (entries.map tagEntry).Sorted (fun x y => strLE x y = true) ∧
      ((∀ kv ∈ [("region", "us"), ("host", "a")], ∀ c ∈ kv.1.toList, '='.toNat < c.toNat) →
        (entries.map Prod.fst).Sorted (fun x y => strLE x y = true)) :=
  ⟨by decide, by decide,
    getSeriesIdentifier_entry_order "cpu" [("region", "us"), ("host", "a")]⟩

/-- C18, existing points survive a write: for every store in which the series
of an identity is non-empty, a `Write` to that identity completes, the new
dataPoints have length exactly one more than before, and the previous
dataPoints are obtained from the new ones by deleting a single element; so
the previous dataPoints are a subsequence of the new ones (same relative
order) and every point is stored at least as often as before. -/
theorem Write_keeps_existing_points (growCap : Nat → Nat) (s : timeSeries) (name : String)
    (tags : List (String × String)) (value : float64) (timestamp : Int) (timeseries : series)
    (hs : s.series (getSeriesIdentifier name tags) = some timeseries)
    (hne : timeseries.dataPoints ≠ []) :
    ∃ s1 timeseries1,
      s.Write growCap name tags value timestamp = Except.ok s1 ∧
      s1.series (getSeriesIdentifier name tags) = some timeseries1 ∧
      timeseries1.dataPoints.length = timeseries.dataPoints.length + 1 ∧
      (∃ k, k < timeseries1.dataPoints.length ∧
        timeseries1.dataPoints.eraseIdx k = timeseries.dataPoints) ∧
      timeseries.dataPoints.Sublist timeseries1.dataPoints ∧
      (∀ p, timeseries.dataPoints.count p ≤ timeseries1.dataPoints.count p) := by
  have hl := List.getLast?_eq_getLast timeseries.dataPoints hne
  generalize timeseries.dataPoints.getLast hne = latest0 at hl
  rw [Write_existing growCap s name tags value timestamp timeseries hs]
  have key : ∀ (new : List metric) (k : Nat), k ≤ timeseries.dataPoints.length →
      new.length = timeseries.dataPoints.length + 1 →
      new.eraseIdx k = timeseries.dataPoints →
      new.length = timeseries.dataPoints.length + 1 ∧
      (∃ k, k < new.length ∧ new.eraseIdx k = timeseries.dataPoints) ∧
      timeseries.dataPoints.Sublist new ∧
      (∀ p, timeseries.dataPoints.count p ≤ new.count p) := by
    intro new k hk hlen he
    have hsub : timeseries.dataPoints.Sublist new := by
      rw [← he]; exact List.eraseIdx_sublist new k
    exact ⟨hlen, ⟨k, by omega, he⟩, hsub, fun p => hsub.count_le p⟩
  by_cases hlt : latest0.timeStamp < timestamp
  · rw [insertDataPoint_fast growCap timeseries _ timestamp latest0 hl hlt]
    exact ⟨_, _, rfl, store_series_self _ _ _,
      key _ timeseries.dataPoints.length (Nat.le_refl _) (by simp)
        (by simp [List.eraseIdx_append_of_length_le])⟩
  · rw [insertDataPoint_slow growCap timeseries _ timestamp latest0 hl hlt]
    have hk := sort.Search_le timeseries.dataPoints.length
      (tsGE timeseries.dataPoints timestamp)
    exact ⟨_, _, rfl, store_series_self _ _ _,
      key _ _ hk (by simp [List.length_take, List.length_drop]; omega)
        (eraseIdx_insert_at _ _ _ hk)⟩

/-- C18 at the series (10, 1.0), (20, 2.0) and `Write(5.0, 10)`. -/
theorem Write_keeps_existing_points_witness :
    (cpuStore [cpuPoint 10 1, cpuPoint 20 2] 2).series
        (getSeriesIdentifier "cpu" [("host", "a")]) =
      some ⟨[cpuPoint 10 1, cpuPoint 20 2], 2⟩ ∧
    [cpuPoint 10 1, cpuPoint 20 2] ≠ [] ∧
    ∃ s1 timeseries1,
      (cpuStore [cpuPoint 10 1, cpuPoint 20 2] 2).Write (fun c => 2 * c) "cpu"
        [("host", "a")] (float64.finite 5) 10 = Except.ok s1 ∧
      s1.series (getSeriesIdentifier "cpu" [("host", "a")]) = some timeseries1 ∧
      timeseries1.dataPoints.length = 2 + 1 ∧
      (∃ k, k < timeseries1.dataPoints.length ∧
        timeseries1.dataPoints.eraseIdx k = [cpuPoint 10 1, cpuPoint 20 2]) ∧
      [cpuPoint 10 1, cpuPoint 20 2].Sublist timeseries1.dataPoints ∧
      (∀ p, [cpuPoint 10 1, cpuPoint 20 2].count p ≤ timeseries1.dataPoints.count p) :=
  ⟨cpuStore_series _ _, by decide,
    Write_keeps_existing_points (fun c => 2 * c) (cpuStore [cpuPoint 10 1, cpuPoint 20 2] 2)
      "cpu" [("host", "a")] (float64.finite 5) 10 ⟨[cpuPoint 10 1, cpuPoint 20 2], 2⟩
      (cpuStore_series _ _) (by decide)⟩

/-- C19, frame: for every store and every completed
`Write(name, tags, value, timestamp)`, every identifier other than
`getSeriesIdentifier(name, tags)` maps after the write to what it mapped to
before: a series present before is still present with exactly the same
dataPoints, and no other identifier gains a series. -/
theorem Write_frame (growCap : Nat → Nat) (s s1 : timeSeries) (name : String)
    (tags : List (String × String)) (value : float64) (timestamp : Int)
    (h : s.Write growCap name tags value timestamp = Except.ok s1)
    (key : String) (hkey : key ≠ getSeriesIdentifier name tags) :
    s1.series key = s.series key ∧ s1.pointsAt key = s.pointsAt key := by
  have hser : s1.series key = s.series key := by
    unfold timeSeries.Write at h
    cases hs : s.series (getSeriesIdentifier name tags) with
    | none => simp [hs] at h
    | some timeseries =>
      simp only [hs] at h
      cases hi : insertDataPoint growCap timeseries ⟨name, value, timestamp, tags⟩ timestamp with
      | error e => simp [hi] at h
      | ok timeseries1 =>
        simp only [hi, Except.ok.injEq] at h
        rw [← h]
        simp [timeSeries.store, hkey]
  exact ⟨hser, by simp [timeSeries.pointsAt, hser]⟩

/-- C19 at a store with the two series of `("cpu", {"host": "a"})` and
`("mem", {"host": "a"})`: the completed `Write("cpu", {"host": "a"}, 2.0, 20)`
leaves the series of "mem" as it was. -/
theorem Write_frame_witness :
    twoStore.Write (fun c => 2 * c) "cpu" [("host", "a")] (float64.finite 2) 20 =
      Except.ok (twoStore.store (getSeriesIdentifier "cpu" [("host", "a")])
        ⟨[cpuPoint 10 1, cpuPoint 20 2], 2⟩) ∧
    getSeriesIdentifier "mem" [("host", "a")] ≠ getSeriesIdentifier "cpu" [("host", "a")] ∧
    twoStore.pointsAt (getSeriesIdentifier "mem" [("host", "a")]) =
      some [⟨"mem", float64.finite 7, 5, [("host", "a")]⟩] ∧
    (twoStore.store (getSeriesIdentifier "cpu" [("host", "a")])
        ⟨[cpuPoint 10 1, cpuPoint 20 2], 2⟩).series
        (getSeriesIdentifier "mem" [("host", "a")]) =
      twoStore.series (getSeriesIdentifier "mem" [("host", "a")]) ∧
    (twoStore.store (getSeriesIdentifier "cpu" [("host", "a")])
        ⟨[cpuPoint 10 1, cpuPoint 20 2], 2⟩).pointsAt
        (getSeriesIdentifier "mem" [("host", "a")]) =
      twoStore.pointsAt (getSeriesIdentifier "mem" [("host", "a")]) :=
  ⟨rfl, by decide, by decide,
    Write_frame (fun c => 2 * c) twoStore
      (twoStore.store (getSeriesIdentifier "cpu" [("host", "a")])
        ⟨[cpuPoint 10 1, cpuPoint 20 2], 2⟩)
      "cpu" [("host", "a")] (float64.finite 2) 20 rfl
      (getSeriesIdentifier "mem" [("host", "a")]) (by decide)⟩

end TSDB
